import Mathlib

/-!
Verification of the kban kanban server (Go) against its specification.

The embedding models the pure board transformations performed by the HTTP
handlers in `main.go` and the load path in `s3.go`.  Persistence is modelled
by the handler returning the board it would pass to `SaveBoard` (`some b`),
or `none` when the handler returns before saving.
-/

namespace Kban

/-- `Card` struct from the source. `Position` is a Go `int`, modelled as `Int`. -/
structure Card where
  ID : String
  Title : String
  Description : String
  Status : String
  Position : Int
deriving Repr, DecidableEq

/-- `Board` struct from the source. -/
structure Board where
  Cards : List Card
deriving Repr, DecidableEq

/-- Errors surfaced by the card operations (HTTP 404 in the handlers). -/
inductive ApiError where
  | CardNotFound
deriving Repr, DecidableEq

/-- POST /api/card handler body (after JSON decode and board load): the
request card's `ID` is overwritten by `generateID()` (modelled as the
`newId` argument), and `Position` is overwritten with
`maxPos + 1` where `maxPos` starts at `-1` and scans all cards of the
target status.  The card is appended at the end of `board.Cards`.
Returns the new board together with the created card (echoed as JSON). -/
def createCard (board : Board) (card : Card) (newId : String) : Board × Card :=
  let card1 := { card with ID := newId }
  let maxPos := board.Cards.foldl
    (fun m c => if c.Status = card1.Status ∧ m < c.Position then c.Position else m) (-1)
  let card2 := { card1 with Position := maxPos + 1 }
  ({ Cards := board.Cards ++ [card2] }, card2)

/-- The field overwrite performed on the matched card by the PUT handler's
first loop: `Title`, `Description`, `Status` and `Position` are replaced by
the request's values (the Go guard `update.Position != 0 || update.Position
== 0` is a tautology, so `Position` is always overwritten). -/
def setFields (c u : Card) : Card :=
  { c with Title := u.Title, Description := u.Description,
           Status := u.Status, Position := u.Position }

/-- The first loop of the PUT handler: find the first card whose `ID`
matches, record its old `Status` and `Position`, and overwrite its fields
with the request's values.  `none` models `updated == false` (the 404
path). -/
def applyFields (cards : List Card) (id : String) (u : Card) :
    Option (List Card × String × Int) :=
  match cards with
  | [] => none
  | c :: rest =>
    if c.ID = id then
      some (setFields c u :: rest, c.Status, c.Position)
    else
      match applyFields rest id u with
      | none => none
      | some (rest', os, op) => some (c :: rest', os, op)

/-- `findCardIndex` from the source: first index of the card with the given
id, `-1` if absent. -/
def findCardIndexAux : List Card → String → Nat → Int
  | [], _, _ => -1
  | c :: rest, id, i => if c.ID = id then (i : Int) else findCardIndexAux rest id (i + 1)

def findCardIndex (cards : List Card) (id : String) : Int :=
  findCardIndexAux cards id 0

/-- The clamp in the PUT handler: `pos` is forced into `[0, n]`. -/
def clampPos (p : Int) (n : Nat) : Nat :=
  if p < 0 then 0 else if (n : Int) < p then n else p.toNat

/-- The renumbering double loop of the PUT handler: for each index `i` and
card `nc` of `newOrder` (in order), every board card whose `ID` equals
`nc.ID` gets `Position := i` and `Status := st`. -/
def renumber (cards : List Card) (newOrder : List Card) (st : String) : List Card :=
  newOrder.enum.foldl
    (fun cs p =>
      cs.map (fun c => if c.ID = p.2.ID then { c with Position := (p.1 : Int), Status := st } else c))
    cards

/-- The reordering block of the PUT handler (entered when status or position
changed): locate the moving card, collect the other cards of the target
column in board order, clamp the requested position, splice the moving card
in, and renumber the whole column.  `moveIdx = -1` only logs and skips. -/
def reorderColumn (cards : List Card) (id : String) (u : Card) : List Card :=
  let moveIdx := findCardIndex cards id
  if moveIdx = -1 then cards
  else
    match cards.get? moveIdx.toNat with
    | none => cards
    | some mc =>
      let others := cards.filter (fun c => decide (c.ID ≠ id ∧ c.Status = u.Status))
      let pos := clampPos u.Position others.length
      let movingCard := { mc with Status := u.Status }
      let newOrder := others.take pos ++ [movingCard] ++ others.drop pos
      renumber cards newOrder u.Status

/-- PUT /api/card/{id} after JSON decode and board load: apply the field
updates; 404 if the id is absent; run the reorder block iff the status or
the position actually changed; the resulting board is saved. -/
def updateCard (board : Board) (id : String) (u : Card) : Except ApiError Board :=
  match applyFields board.Cards id u with
  | none => .error .CardNotFound
  | some (cards1, oldStatus, oldPosition) =>
    if oldStatus ≠ u.Status ∨ oldPosition ≠ u.Position then
      .ok { Cards := reorderColumn cards1 id u }
    else
      .ok { Cards := cards1 }

/-- DELETE /api/card/{id} after board load: keep the cards whose id
differs; 404 when nothing was removed; the filtered board is saved. -/
def deleteCard (board : Board) (id : String) : Except ApiError Board :=
  let newCards := board.Cards.filter (fun c => decide (c.ID ≠ id))
  if newCards.length = board.Cards.length then .error .CardNotFound
  else .ok { Cards := newCards }

/-- The PUT handler's observable outcome: HTTP status, and the board passed
to `SaveBoard` (`none` when the handler returns before saving). -/
def putCardHandler (board : Board) (id : String) (u : Card) : Nat × Option Board :=
  match updateCard board id u with
  | .error .CardNotFound => (404, none)
  | .ok b' => (204, some b')

/-- The DELETE handler's observable outcome, as for `putCardHandler`. -/
def deleteCardHandler (board : Board) (id : String) : Nat × Option Board :=
  match deleteCard board id with
  | .error .CardNotFound => (404, none)
  | .ok b' => (204, some b')

/-- Outcome of the `GetObject` call in `LoadBoard`: a body, an S3 API error
with its error code, or a non-API transport error. -/
inductive GetObjectResult where
  | success (data : String)
  | apiError (code : String)
  | otherError
deriving Repr, DecidableEq

/-- Errors surfaced by `LoadBoard` (both map to HTTP 500 upstream). -/
inductive StoreError where
  | StorageUnavailable
  | StorageCorrupt
deriving Repr, DecidableEq

/-- `LoadBoard` from `s3.go`, parametrised by the `GetObject` outcome and by
the JSON decoder (`json.Unmarshal`, external): `NoSuchKey`/`NotFound` API
errors yield the empty board, any other failure is an error, and a body
that does not parse is an error (never replaced by an empty board). -/
def LoadBoard (res : GetObjectResult) (parse : String → Option Board) :
    Except StoreError Board :=
  match res with
  | .apiError code =>
    if code = "NoSuchKey" ∨ code = "NotFound" then .ok { Cards := [] }
    else .error .StorageUnavailable
  | .otherError => .error .StorageUnavailable
  | .success data =>
    match parse data with
    | none => .error .StorageCorrupt
    | some b => .ok b

/-- Board states reachable through the public API from the empty board.
`generateID` is server-side and assumed to produce fresh ids (the spec's
"id: opaque, unique, generated server-side"), hence the freshness premise
on `create`. -/
inductive Reachable : Board → Prop where
  | empty : Reachable { Cards := [] }
  | create (b b' : Board) (card : Card) (newId : String) :
      Reachable b → (∀ c ∈ b.Cards, c.ID ≠ newId) →
      b' = (createCard b card newId).1 → Reachable b'
  | update (b b' : Board) (id : String) (u : Card) :
      Reachable b → updateCard b id u = .ok b' → Reachable b'
  | delete (b b' : Board) (id : String) :
      Reachable b → deleteCard b id = .ok b' → Reachable b'

/-- Cards of `board` in status `s`, in board order. -/
def column (cards : List Card) (s : String) : List Card :=
  cards.filter (fun c => decide (c.Status = s))

/-- The spec's dense-ordering invariant for one status: the positions of the
column are exactly `{0, …, k-1}`. -/
def DenseColumn (cards : List Card) (s : String) : Prop :=
  ((column cards s).map Card.Position).Perm
    ((List.range (column cards s).length).map (fun n : Nat => (n : Int)))

instance (cards : List Card) (s : String) : Decidable (DenseColumn cards s) := by
  unfold DenseColumn; infer_instance

/-- The dense-ordering invariant of spec §3/§8, over every status value. -/
def DenseBoard (b : Board) : Prop :=
  ∀ s : String, DenseColumn b.Cards s

/-- First card with the given id, as the frontend would look it up. -/
def findCard (cards : List Card) (id : String) : Option Card :=
  cards.find? (fun c => decide (c.ID = id))

/-- The effect of the renumbering loop on a single card, starting the outer
loop counter at `n`: scanning `newOrder` in order, every entry whose `ID`
matches overwrites the card's `Position` with the entry's index and its
`Status` with `st`. -/
def applyOrderFrom (n : Nat) (newOrder : List Card) (st : String) (c : Card) : Card :=
  (newOrder.enumFrom n).foldl
    (fun c p => if c.ID = p.2.ID then { c with Position := (p.1 : Int), Status := st } else c) c

/-- The per-card effect of `renumber` (outer loop counter starting at 0). -/
def applyOrder (newOrder : List Card) (st : String) (c : Card) : Card :=
  applyOrderFrom 0 newOrder st c

/-- The invariant the code actually maintains on reachable boards: ids are
pairwise distinct, and within each status column the positions are pairwise
distinct (density — no gaps — is *not* maintained; see the delete and the
cross-column-move paths). -/
def Distinct (b : Board) : Prop :=
  (b.Cards.map Card.ID).Nodup ∧
  ∀ s : String, ((column b.Cards s).map Card.Position).Nodup

/-- Modelled from the claim's words (for comparison with `reorderColumn`,
which is translated from the source): identical to the source's reordering
block except that the "others" of the target column are ordered by their
current ascending `Position` (stable insertion sort) instead of being kept
in board order. -/
def reorderColumnSpecOrdered (cards : List Card) (id : String) (u : Card) : List Card :=
  let moveIdx := findCardIndex cards id
  if moveIdx = -1 then cards
  else
    match cards.get? moveIdx.toNat with
    | none => cards
    | some mc =>
      let others :=
        (cards.filter (fun c => decide (c.ID ≠ id ∧ c.Status = u.Status))).insertionSort
          (fun a b => a.Position ≤ b.Position)
      let pos := clampPos u.Position others.length
      let movingCard := { mc with Status := u.Status }
      let newOrder := others.take pos ++ [movingCard] ++ others.drop pos
      renumber cards newOrder u.Status

/-- Modelled from the claim's words: `updateCard` with the
position-ordered variant of the reordering block. -/
def updateCardSpecOrdered (board : Board) (id : String) (u : Card) : Except ApiError Board :=
  match applyFields board.Cards id u with
  | none => .error .CardNotFound
  | some (cards1, oldStatus, oldPosition) =>
    if oldStatus ≠ u.Status ∨ oldPosition ≠ u.Position then
      .ok { Cards := reorderColumnSpecOrdered cards1 id u }
    else
      .ok { Cards := cards1 }

/-- The splice the PUT handler builds for the target column: the other
cards before the clamped index, the moving card, the other cards after. -/
def insertOrder (others : List Card) (pos : Nat) (mc : Card) : List Card :=
  others.take pos ++ [mc] ++ others.drop pos

/-- Concrete card fixture for witnesses and counterexamples. -/
def mkCard (id title st : String) (p : Int) : Card :=
  { ID := id, Title := title, Description := "", Status := st, Position := p }

end Kban

namespace Kban

/-! ### Structural lemmas about the PUT handler's first loop -/

theorem setFields_ID (c u : Card) : (setFields c u).ID = c.ID := rfl

theorem applyFields_append (l1 l2 : List Card) (c : Card) (id : String) (u : Card)
    (h1 : ∀ x ∈ l1, x.ID ≠ id) (hc : c.ID = id) :
    applyFields (l1 ++ c :: l2) id u =
      some (l1 ++ setFields c u :: l2, c.Status, c.Position) := by
  induction l1 with
  | nil => simp [applyFields, hc]
  | cons a l ih =>
    have ha : ¬ (a.ID = id) := h1 a (List.mem_cons_self a l)
    have ih' := ih (fun x hx => h1 x (List.mem_cons_of_mem a hx))
    simp [applyFields, ha, ih']

theorem applyFields_none {cards : List Card} {id : String} (u : Card)
    (h : ∀ x ∈ cards, x.ID ≠ id) : applyFields cards id u = none := by
  induction cards with
  | nil => rfl
  | cons a rest ih =>
    have ha : ¬ (a.ID = id) := h a (List.mem_cons_self a rest)
    simp [applyFields, ha, ih (fun x hx => h x (List.mem_cons_of_mem a hx))]

theorem applyFields_eq_some {cards : List Card} {id : String} {u : Card}
    {cards' : List Card} {os : String} {op : Int}
    (h : applyFields cards id u = some (cards', os, op)) :
    ∃ l1 c l2, cards = l1 ++ c :: l2 ∧ (∀ x ∈ l1, x.ID ≠ id) ∧ c.ID = id ∧
      cards' = l1 ++ setFields c u :: l2 ∧ os = c.Status ∧ op = c.Position := by
  induction cards generalizing cards' os op with
  | nil => simp [applyFields] at h
  | cons a rest ih =>
    by_cases ha : a.ID = id
    · simp only [applyFields, if_pos ha, Option.some_inj, Prod.ext_iff] at h
      obtain ⟨h1, h2, h3⟩ := h
      exact ⟨[], a, rest, rfl, by simp, ha, h1.symm, h2.symm, h3.symm⟩
    · simp only [applyFields, if_neg ha] at h
      cases hrest : applyFields rest id u with
      | none => rw [hrest] at h; exact absurd h (by simp)
      | some t =>
        obtain ⟨r', os', op'⟩ := t
        rw [hrest] at h
        simp only [Option.some_inj, Prod.ext_iff] at h
        obtain ⟨h1, h2, h3⟩ := h
        obtain ⟨l1, c, l2, hsplit, hl1, hcid, hr', hos, hop⟩ := ih hrest
        refine ⟨a :: l1, c, l2, by simp [hsplit], ?_, hcid, ?_, h2 ▸ hos, h3 ▸ hop⟩
        · intro x hx
          rcases List.mem_cons.mp hx with hxa | hxl
          · exact hxa ▸ ha
          · exact hl1 x hxl
        · rw [← h1, hr']; rfl

/-! ### `findCardIndex` -/

theorem findCardIndexAux_append (l1 l2 : List Card) (c : Card) (id : String)
    (h1 : ∀ x ∈ l1, x.ID ≠ id) (hc : c.ID = id) (n : Nat) :
    findCardIndexAux (l1 ++ c :: l2) id n = ((n + l1.length : Nat) : Int) := by
  induction l1 generalizing n with
  | nil => simp [findCardIndexAux, hc]
  | cons a l ih =>
    have ha : ¬ (a.ID = id) := h1 a (List.mem_cons_self a l)
    have ih' := ih (fun x hx => h1 x (List.mem_cons_of_mem a hx)) (n + 1)
    simp only [List.cons_append, findCardIndexAux, if_neg ha, List.length_cons,
      List.append_eq]
    rw [ih']
    congr 1
    omega

theorem findCardIndex_append (l1 l2 : List Card) (c : Card) (id : String)
    (h1 : ∀ x ∈ l1, x.ID ≠ id) (hc : c.ID = id) :
    findCardIndex (l1 ++ c :: l2) id = (l1.length : Int) := by
  simpa [findCardIndex] using findCardIndexAux_append l1 l2 c id h1 hc 0

end Kban

namespace Kban

/-! ### The renumbering loop as a per-card map -/

theorem foldl_map_comm {α β : Type} (l : List β) (f : β → α → α) (s : List α) :
    l.foldl (fun cs p => cs.map (f p)) s = s.map (fun c => l.foldl (fun c p => f p c) c) := by
  induction l generalizing s with
  | nil => simp
  | cons p l ih =>
    simp only [List.foldl_cons, ih, List.map_map]
    rfl

theorem renumber_eq_map (cards newOrder : List Card) (st : String) :
    renumber cards newOrder st = cards.map (applyOrder newOrder st) := by
  unfold renumber applyOrder applyOrderFrom
  exact foldl_map_comm _ _ _

theorem applyOrderFrom_cons (n : Nat) (a : Card) (l : List Card) (st : String) (c : Card) :
    applyOrderFrom n (a :: l) st c =
      applyOrderFrom (n + 1) l st
        (if c.ID = a.ID then { c with Position := (n : Int), Status := st } else c) := by
  simp [applyOrderFrom, List.enumFrom_cons]

theorem applyOrderFrom_ID (n : Nat) (no : List Card) (st : String) (c : Card) :
    (applyOrderFrom n no st c).ID = c.ID := by
  induction no generalizing n c with
  | nil => rfl
  | cons a l ih =>
    rw [applyOrderFrom_cons]
    by_cases h : c.ID = a.ID
    · rw [if_pos h, ih]
    · rw [if_neg h, ih]

theorem applyOrderFrom_not_mem (n : Nat) (no : List Card) (st : String) (c : Card)
    (h : c.ID ∉ no.map Card.ID) : applyOrderFrom n no st c = c := by
  induction no generalizing n with
  | nil => rfl
  | cons a l ih =>
    have ha : ¬ (c.ID = a.ID) := fun hx => h (by simp [hx])
    rw [applyOrderFrom_cons, if_neg ha]
    exact ih (n + 1) (fun hx => h (by simp at hx ⊢; exact Or.inr hx))

theorem applyOrderFrom_mem (n : Nat) (no : List Card) (st : String) (c : Card)
    (hnd : (no.map Card.ID).Nodup) (hmem : c.ID ∈ no.map Card.ID) :
    applyOrderFrom n no st c =
      { c with Position := ((n + List.indexOf c.ID (no.map Card.ID) : Nat) : Int),
               Status := st } := by
  induction no generalizing n c with
  | nil => simp at hmem
  | cons a l ih =>
    rw [applyOrderFrom_cons]
    by_cases h : c.ID = a.ID
    · rw [if_pos h]
      have hnotl : c.ID ∉ l.map Card.ID := by
        rw [List.map_cons, List.nodup_cons] at hnd
        exact h ▸ hnd.1
      rw [applyOrderFrom_not_mem (n + 1) l st _ (by simpa using hnotl)]
      have hidx : List.indexOf c.ID ((a :: l).map Card.ID) = 0 := by
        simp [List.indexOf_cons, h]
      rw [hidx]
      simp
    · rw [if_neg h]
      have hml : c.ID ∈ l.map Card.ID := by
        simp only [List.map_cons, List.mem_cons] at hmem
        exact hmem.resolve_left h
      have hndl : (l.map Card.ID).Nodup := by
        rw [List.map_cons, List.nodup_cons] at hnd
        exact hnd.2
      rw [ih (n + 1) c hndl hml]
      have hidx : List.indexOf c.ID ((a :: l).map Card.ID) =
          List.indexOf c.ID (l.map Card.ID) + 1 := by
        simp only [List.map_cons, List.indexOf_cons]
        have : (a.ID == c.ID) = false := by
          simp [beq_iff_eq]
          exact fun hx => h hx.symm
        rw [this]
        rfl
      rw [hidx]
      congr 2
      omega

theorem applyOrder_not_mem (no : List Card) (st : String) (c : Card)
    (h : c.ID ∉ no.map Card.ID) : applyOrder no st c = c :=
  applyOrderFrom_not_mem 0 no st c h

theorem applyOrder_mem (no : List Card) (st : String) (c : Card)
    (hnd : (no.map Card.ID).Nodup) (hmem : c.ID ∈ no.map Card.ID) :
    applyOrder no st c =
      { c with Position := ((List.indexOf c.ID (no.map Card.ID) : Nat) : Int),
               Status := st } := by
  rw [applyOrder, applyOrderFrom_mem 0 no st c hnd hmem]
  simp

theorem applyOrderFrom_status (n : Nat) (no : List Card) (st : String) (c : Card)
    (h : c.Status = st) : (applyOrderFrom n no st c).Status = st := by
  induction no generalizing n c with
  | nil => exact h
  | cons a l ih =>
    rw [applyOrderFrom_cons]
    by_cases hx : c.ID = a.ID
    · rw [if_pos hx]; exact ih (n + 1) _ rfl
    · rw [if_neg hx]; exact ih (n + 1) _ h

theorem applyOrderFrom_congr_ids (n : Nat) (no₁ no₂ : List Card) (st : String) (c : Card)
    (h : no₁.map Card.ID = no₂.map Card.ID) :
    applyOrderFrom n no₁ st c = applyOrderFrom n no₂ st c := by
  induction no₁ generalizing no₂ n c with
  | nil =>
    cases no₂ with
    | nil => rfl
    | cons b l₂ => simp at h
  | cons a l ih =>
    cases no₂ with
    | nil => simp at h
    | cons b l₂ =>
      simp only [List.map_cons, List.cons.injEq] at h
      rw [applyOrderFrom_cons, applyOrderFrom_cons, h.1, ih (n + 1) l₂ _ h.2]

end Kban

namespace Kban

/-! ### Generic helpers: first-occurrence split, lookups, max fold -/

theorem exists_first_split {cards : List Card} {id : String}
    (h : ∃ c ∈ cards, c.ID = id) :
    ∃ l1 c l2, cards = l1 ++ c :: l2 ∧ (∀ x ∈ l1, x.ID ≠ id) ∧ c.ID = id := by
  induction cards with
  | nil => simp at h
  | cons a rest ih =>
    by_cases ha : a.ID = id
    · exact ⟨[], a, rest, rfl, by simp, ha⟩
    · obtain ⟨c, hc, hcid⟩ := h
      rcases List.mem_cons.mp hc with rfl | hcr
      · exact absurd hcid ha
      · obtain ⟨l1, c', l2, hsplit, hl1, hc'⟩ := ih ⟨c, hcr, hcid⟩
        refine ⟨a :: l1, c', l2, by simp [hsplit], ?_, hc'⟩
        intro x hx
        rcases List.mem_cons.mp hx with rfl | hxl
        · exact ha
        · exact hl1 x hxl

theorem findCard_append (l1 l2 : List Card) (c : Card) (id : String)
    (hl1 : ∀ x ∈ l1, x.ID ≠ id) (hc : c.ID = id) :
    findCard (l1 ++ c :: l2) id = some c := by
  induction l1 with
  | nil => simp [findCard, List.find?_cons, hc]
  | cons a l ih =>
    have ha : ¬ (a.ID = id) := hl1 a (List.mem_cons_self a l)
    have ih' := ih (fun x hx => hl1 x (List.mem_cons_of_mem a hx))
    simpa [findCard, List.find?_cons, ha] using ih'

theorem findCard_map_pres (f : Card → Card) (l : List Card) (id : String)
    (hf : ∀ x, (f x).ID = x.ID) :
    findCard (l.map f) id = (findCard l id).map f := by
  induction l with
  | nil => rfl
  | cons a rest ih =>
    by_cases ha : a.ID = id
    · simp [findCard, List.find?_cons, hf, ha]
    · simp only [List.map_cons, findCard, List.find?_cons] at ih ⊢
      rw [show (decide ((f a).ID = id)) = false by simp [hf, ha],
          show (decide (a.ID = id)) = false by simp [ha]]
      exact ih

theorem maxfold_init_le (cards : List Card) (s : String) (m0 : Int) :
    m0 ≤ cards.foldl (fun m c => if c.Status = s ∧ m < c.Position then c.Position else m) m0 := by
  induction cards generalizing m0 with
  | nil => exact le_refl _
  | cons a rest ih =>
    simp only [List.foldl_cons]
    refine le_trans ?_ (ih _)
    by_cases h : a.Status = s ∧ m0 < a.Position
    · rw [if_pos h]; exact le_of_lt h.2
    · rw [if_neg h]

theorem maxfold_mem_le (cards : List Card) (s : String) (m0 : Int) :
    ∀ c ∈ cards, c.Status = s →
      c.Position ≤
        cards.foldl (fun m c => if c.Status = s ∧ m < c.Position then c.Position else m) m0 := by
  induction cards generalizing m0 with
  | nil => intro c hc; simp at hc
  | cons a rest ih =>
    intro c hc hcs
    simp only [List.foldl_cons]
    rcases List.mem_cons.mp hc with rfl | hcr
    · refine le_trans ?_ (maxfold_init_le rest s _)
      by_cases h : c.Status = s ∧ m0 < c.Position
      · rw [if_pos h]
      · rw [if_neg h]
        push_neg at h
        exact le_of_not_lt (fun hlt => absurd (h hcs) (not_le.mpr hlt))
    · exact ih _ c hcr hcs

theorem maxfold_attained (cards : List Card) (s : String) (m0 : Int) :
    cards.foldl (fun m c => if c.Status = s ∧ m < c.Position then c.Position else m) m0 = m0 ∨
      ∃ c ∈ cards, c.Status = s ∧
        cards.foldl (fun m c => if c.Status = s ∧ m < c.Position then c.Position else m) m0 =
          c.Position := by
  induction cards generalizing m0 with
  | nil => exact Or.inl rfl
  | cons a rest ih =>
    simp only [List.foldl_cons]
    by_cases h : a.Status = s ∧ m0 < a.Position
    · rw [if_pos h]
      rcases ih a.Position with heq | ⟨c, hc, hcs, heq⟩
      · exact Or.inr ⟨a, List.mem_cons_self a rest, h.1, heq⟩
      · exact Or.inr ⟨c, List.mem_cons_of_mem a hc, hcs, heq⟩
    · rw [if_neg h]
      rcases ih m0 with heq | ⟨c, hc, hcs, heq⟩
      · exact Or.inl heq
      · exact Or.inr ⟨c, List.mem_cons_of_mem a hc, hcs, heq⟩

/-! ### Unfolding the reorder block on a first-occurrence split -/

theorem reorderColumn_eq (l1 l2 : List Card) (c' : Card) (id : String) (u : Card)
    (hl1 : ∀ x ∈ l1, x.ID ≠ id) (hc : c'.ID = id) :
    reorderColumn (l1 ++ c' :: l2) id u =
      renumber (l1 ++ c' :: l2)
        (insertOrder
          ((l1 ++ c' :: l2).filter (fun x => decide (x.ID ≠ id ∧ x.Status = u.Status)))
          (clampPos u.Position
            ((l1 ++ c' :: l2).filter
              (fun x => decide (x.ID ≠ id ∧ x.Status = u.Status))).length)
          { c' with Status := u.Status })
        u.Status := by
  unfold reorderColumn
  rw [findCardIndex_append l1 l2 c' id hl1 hc]
  have hne : ¬ ((l1.length : Int) = -1) := by omega
  rw [if_neg hne]
  have hget : (l1 ++ c' :: l2).get? ((l1.length : Int)).toNat = some c' := by
    rw [Int.toNat_natCast, List.get?_eq_getElem?,
        List.getElem?_append_right (le_refl l1.length)]
    simp
  rw [hget]
  rfl

theorem filter_others_eq (l1 l2 : List Card) (c' : Card) (id s : String)
    (hl1 : ∀ x ∈ l1, x.ID ≠ id) (hl2 : ∀ x ∈ l2, x.ID ≠ id) (hc : c'.ID = id) :
    (l1 ++ c' :: l2).filter (fun x => decide (x.ID ≠ id ∧ x.Status = s)) =
      column (l1 ++ l2) s := by
  unfold column
  rw [List.filter_append, List.filter_append, List.filter_cons]
  rw [show (decide (c'.ID ≠ id ∧ c'.Status = s)) = false by simp [hc]]
  simp only [Bool.false_eq_true, if_neg]
  congr 1
  · exact List.filter_congr (fun x hx => by simp [hl1 x hx])
  · exact List.filter_congr (fun x hx => by simp [hl2 x hx])

end Kban

namespace Kban

theorem updateCard_eq_split (l1 l2 : List Card) (c : Card) (id : String) (u : Card)
    (hl1 : ∀ x ∈ l1, x.ID ≠ id) (hc : c.ID = id) :
    updateCard ⟨l1 ++ c :: l2⟩ id u =
      if c.Status ≠ u.Status ∨ c.Position ≠ u.Position then
        .ok ⟨reorderColumn (l1 ++ setFields c u :: l2) id u⟩
      else .ok ⟨l1 ++ setFields c u :: l2⟩ := by
  unfold updateCard
  rw [applyFields_append l1 l2 c id u hl1 hc]

theorem putCardHandler_ok {b : Board} {id : String} {u : Card} {b' : Board}
    (h : updateCard b id u = .ok b') : putCardHandler b id u = (204, some b') := by
  unfold putCardHandler
  rw [h]

end Kban

namespace Kban

/-- C7: for every board and every id not present on it, an update request
fails with CardNotFound (HTTP 404) without saving, and a delete request
fails with CardNotFound (HTTP 404) without saving, so the persisted board
is unchanged on both error paths. -/
theorem update_delete_not_found (b : Board) (id : String) (u : Card)
    (h : ∀ c ∈ b.Cards, c.ID ≠ id) :
    putCardHandler b id u = (404, none) ∧ deleteCardHandler b id = (404, none) := by
  constructor
  · unfold putCardHandler updateCard
    rw [applyFields_none u h]
  · have hfil : b.Cards.filter (fun c => decide (c.ID ≠ id)) = b.Cards :=
      List.filter_eq_self.mpr (fun a ha => by simpa using h a ha)
    have hcond : (b.Cards.filter (fun c => decide (c.ID ≠ id))).length = b.Cards.length := by
      rw [hfil]
    unfold deleteCardHandler deleteCard
    rw [if_pos hcond]

/-- Witness for C7 at a concrete board and a fresh id. -/
theorem update_delete_not_found_witness :
    putCardHandler ⟨[mkCard "a" "a" "ToDo" 0]⟩ "z" (mkCard "z" "z" "ToDo" 0) = (404, none) ∧
    deleteCardHandler ⟨[mkCard "a" "a" "ToDo" 0]⟩ "z" = (404, none) :=
  update_delete_not_found ⟨[mkCard "a" "a" "ToDo" 0]⟩ "z" (mkCard "z" "z" "ToDo" 0)
    (by decide)

/-- C8: load on an absent persisted document (`NoSuchKey`/`NotFound`) is not
an error and yields the empty board, while a document that fails to parse
yields a `StorageCorrupt` error, never an empty board. -/
theorem load_absent_vs_corrupt (parse : String → Option Board) (code data : String)
    (hcode : code = "NoSuchKey" ∨ code = "NotFound") (hbad : parse data = none) :
    LoadBoard (.apiError code) parse = .ok { Cards := [] } ∧
    LoadBoard (.success data) parse = .error .StorageCorrupt := by
  constructor
  · show (if code = "NoSuchKey" ∨ code = "NotFound" then
        (Except.ok { Cards := [] } : Except StoreError Board)
      else .error .StorageUnavailable) = .ok { Cards := [] }
    rw [if_pos hcode]
  · show (match parse data with
      | none => (Except.error StoreError.StorageCorrupt : Except StoreError Board)
      | some b => .ok b) = .error .StorageCorrupt
    rw [hbad]

/-- Witness for C8 with a decoder that rejects the given body. -/
theorem load_absent_vs_corrupt_witness :
    LoadBoard (.apiError "NoSuchKey") (fun _ => none) = .ok { Cards := [] } ∧
    LoadBoard (.success "garbage") (fun _ => none) = .error .StorageCorrupt :=
  load_absent_vs_corrupt (fun _ => none) "NoSuchKey" "garbage" (Or.inl rfl) rfl

/-- C6: an update whose status and position both equal the card's current
values skips the repositioning steps entirely: the card list keeps `l1` and
`l2` (every other card, with status and position) unchanged, and the target
card keeps its status and position. -/
theorem noop_update_frame (l1 l2 : List Card) (c : Card) (id : String) (u : Card)
    (hl1 : ∀ x ∈ l1, x.ID ≠ id) (hc : c.ID = id)
    (hs : u.Status = c.Status) (hp : u.Position = c.Position) :
    updateCard ⟨l1 ++ c :: l2⟩ id u = .ok ⟨l1 ++ setFields c u :: l2⟩ ∧
    (setFields c u).Status = c.Status ∧ (setFields c u).Position = c.Position := by
  refine ⟨?_, hs.symm ▸ rfl, hp.symm ▸ rfl⟩
  rw [updateCard_eq_split l1 l2 c id u hl1 hc, if_neg]
  simp [hs, hp]

/-- Witness for C6 at a concrete two-card board. -/
theorem noop_update_frame_witness :
    updateCard ⟨[mkCard "a" "a" "ToDo" 0] ++ mkCard "b" "b" "ToDo" 1 :: [mkCard "c" "c" "ToDo" 2]⟩
        "b" (mkCard "b" "b2" "ToDo" 1) =
      .ok ⟨[mkCard "a" "a" "ToDo" 0] ++
            setFields (mkCard "b" "b" "ToDo" 1) (mkCard "b" "b2" "ToDo" 1) ::
            [mkCard "c" "c" "ToDo" 2]⟩ ∧
    (setFields (mkCard "b" "b" "ToDo" 1) (mkCard "b" "b2" "ToDo" 1)).Status =
      (mkCard "b" "b" "ToDo" 1).Status ∧
    (setFields (mkCard "b" "b" "ToDo" 1) (mkCard "b" "b2" "ToDo" 1)).Position =
      (mkCard "b" "b" "ToDo" 1).Position :=
  noop_update_frame [mkCard "a" "a" "ToDo" 0] [mkCard "c" "c" "ToDo" 2]
    (mkCard "b" "b" "ToDo" 1) "b" (mkCard "b" "b2" "ToDo" 1)
    (by decide) (by decide) rfl rfl

/-- C10: in the repositioning no-op case the update still overwrites the
card's title and description with the request's values and still reaches
the save: the handler answers 204 and persists the full updated board. -/
theorem noop_update_still_saves (l1 l2 : List Card) (c : Card) (id : String) (u : Card)
    (hl1 : ∀ x ∈ l1, x.ID ≠ id) (hc : c.ID = id)
    (hs : u.Status = c.Status) (hp : u.Position = c.Position) :
    putCardHandler ⟨l1 ++ c :: l2⟩ id u = (204, some ⟨l1 ++ setFields c u :: l2⟩) ∧
    findCard (l1 ++ setFields c u :: l2) id = some (setFields c u) ∧
    (setFields c u).Title = u.Title ∧ (setFields c u).Description = u.Description := by
  refine ⟨?_, findCard_append l1 l2 (setFields c u) id hl1 hc, rfl, rfl⟩
  apply putCardHandler_ok
  rw [updateCard_eq_split l1 l2 c id u hl1 hc, if_neg]
  simp [hs, hp]

/-- Witness for C10 at a concrete board: the title changes, the body is
saved. -/
theorem noop_update_still_saves_witness :
    putCardHandler ⟨[mkCard "a" "a" "ToDo" 0] ++ mkCard "b" "b" "ToDo" 1 :: []⟩
        "b" (mkCard "b" "newTitle" "ToDo" 1) =
      (204, some ⟨[mkCard "a" "a" "ToDo" 0] ++
        setFields (mkCard "b" "b" "ToDo" 1) (mkCard "b" "newTitle" "ToDo" 1) :: []⟩) ∧
    findCard ([mkCard "a" "a" "ToDo" 0] ++
        setFields (mkCard "b" "b" "ToDo" 1) (mkCard "b" "newTitle" "ToDo" 1) :: []) "b" =
      some (setFields (mkCard "b" "b" "ToDo" 1) (mkCard "b" "newTitle" "ToDo" 1)) ∧
    (setFields (mkCard "b" "b" "ToDo" 1) (mkCard "b" "newTitle" "ToDo" 1)).Title =
      (mkCard "b" "newTitle" "ToDo" 1).Title ∧
    (setFields (mkCard "b" "b" "ToDo" 1) (mkCard "b" "newTitle" "ToDo" 1)).Description =
      (mkCard "b" "newTitle" "ToDo" 1).Description :=
  noop_update_still_saves [mkCard "a" "a" "ToDo" 0] [] (mkCard "b" "b" "ToDo" 1) "b"
    (mkCard "b" "newTitle" "ToDo" 1) (by decide) (by decide) rfl rfl

end Kban

namespace Kban

/-- C5: a created card is appended at the end with a fresh server id; its
position is strictly above every position currently in the target column,
equals one plus the column's maximum position when the column is nonempty
(positions being nonnegative, as on every reachable board), and equals 0
when the column is empty; the id and position supplied in the request body
are ignored. -/
theorem create_appends_at_end (b : Board) (req : Card) (newId : String)
    (hpos : ∀ x ∈ column b.Cards req.Status, 0 ≤ x.Position) :
    (createCard b req newId).1.Cards = b.Cards ++ [(createCard b req newId).2] ∧
    (createCard b req newId).2.ID = newId ∧
    (∀ a p, createCard b { req with ID := a, Position := p } newId = createCard b req newId) ∧
    (column b.Cards req.Status = [] → (createCard b req newId).2.Position = 0) ∧
    (∀ x ∈ column b.Cards req.Status, x.Position < (createCard b req newId).2.Position) ∧
    (column b.Cards req.Status ≠ [] →
      ∃ x ∈ column b.Cards req.Status, (createCard b req newId).2.Position = x.Position + 1) := by
  have hP : (createCard b req newId).2.Position =
      b.Cards.foldl
        (fun m c => if c.Status = req.Status ∧ m < c.Position then c.Position else m) (-1) + 1 :=
    rfl
  refine ⟨rfl, rfl, fun a p => rfl, ?_, ?_, ?_⟩
  · intro hempty
    have hnone : ∀ c ∈ b.Cards, ¬ (c.Status = req.Status) := by
      intro c hc hcs
      have : c ∈ column b.Cards req.Status := List.mem_filter.mpr ⟨hc, by simp [hcs]⟩
      rw [hempty] at this
      simp at this
    rcases maxfold_attained b.Cards req.Status (-1) with heq | ⟨c, hc, hcs, _⟩
    · rw [hP, heq]
      decide
    · exact absurd hcs (hnone c hc)
  · intro x hx
    obtain ⟨hxm, hxs⟩ := List.mem_filter.mp hx
    have := maxfold_mem_le b.Cards req.Status (-1) x hxm (by simpa using hxs)
    rw [hP]
    omega
  · intro hne
    rcases maxfold_attained b.Cards req.Status (-1) with heq | ⟨c, hc, hcs, heq⟩
    · obtain ⟨x, hx⟩ := List.exists_mem_of_ne_nil _ hne
      obtain ⟨hxm, hxs⟩ := List.mem_filter.mp hx
      have hle := maxfold_mem_le b.Cards req.Status (-1) x hxm (by simpa using hxs)
      have := hpos x hx
      rw [heq] at hle
      omega
    · refine ⟨c, List.mem_filter.mpr ⟨hc, by simp [hcs]⟩, ?_⟩
      rw [hP, heq]

/-- Witness for C5 on a concrete board with a nonempty ToDo column. -/
theorem create_appends_at_end_witness :
    (0 : Int) ≤ 0 ∧
    ((createCard ⟨[mkCard "a" "a" "ToDo" 0]⟩ (mkCard "ig" "t" "ToDo" 77) "f").1.Cards =
        [mkCard "a" "a" "ToDo" 0] ++
          [(createCard ⟨[mkCard "a" "a" "ToDo" 0]⟩ (mkCard "ig" "t" "ToDo" 77) "f").2] ∧
      (createCard ⟨[mkCard "a" "a" "ToDo" 0]⟩ (mkCard "ig" "t" "ToDo" 77) "f").2.ID = "f" ∧
      (∀ a p,
        createCard ⟨[mkCard "a" "a" "ToDo" 0]⟩
            { mkCard "ig" "t" "ToDo" 77 with ID := a, Position := p } "f" =
          createCard ⟨[mkCard "a" "a" "ToDo" 0]⟩ (mkCard "ig" "t" "ToDo" 77) "f") ∧
      (column [mkCard "a" "a" "ToDo" 0] "ToDo" = [] →
        (createCard ⟨[mkCard "a" "a" "ToDo" 0]⟩ (mkCard "ig" "t" "ToDo" 77) "f").2.Position = 0) ∧
      (∀ x ∈ column [mkCard "a" "a" "ToDo" 0] "ToDo",
        x.Position <
          (createCard ⟨[mkCard "a" "a" "ToDo" 0]⟩ (mkCard "ig" "t" "ToDo" 77) "f").2.Position) ∧
      (column [mkCard "a" "a" "ToDo" 0] "ToDo" ≠ [] →
        ∃ x ∈ column [mkCard "a" "a" "ToDo" 0] "ToDo",
          (createCard ⟨[mkCard "a" "a" "ToDo" 0]⟩ (mkCard "ig" "t" "ToDo" 77) "f").2.Position =
            x.Position + 1)) :=
  ⟨le_refl 0,
    create_appends_at_end ⟨[mkCard "a" "a" "ToDo" 0]⟩ (mkCard "ig" "t" "ToDo" 77) "f"
      (by decide)⟩

/-- C9: the status string of a well-formed update or create body is accepted
verbatim with no validation against the four-column enum: any string
(including the empty string from an omitted field) succeeds, and the card's
status becomes exactly the supplied string. -/
theorem status_accepted_verbatim (b : Board) (id : String) (u : Card) (newId : String)
    (h : ∃ c ∈ b.Cards, c.ID = id) :
    (∃ b' c', updateCard b id u = .ok b' ∧ findCard b'.Cards id = some c' ∧
      c'.Status = u.Status) ∧
    ((createCard b u newId).2).Status = u.Status := by
  refine ⟨?_, rfl⟩
  obtain ⟨cards⟩ := b
  obtain ⟨l1, c, l2, hsplit, hl1, hc⟩ := exists_first_split h
  subst hsplit
  rw [updateCard_eq_split l1 l2 c id u hl1 hc]
  by_cases htrig : c.Status ≠ u.Status ∨ c.Position ≠ u.Position
  · rw [if_pos htrig,
      reorderColumn_eq l1 l2 (setFields c u) id u hl1 hc, renumber_eq_map]
    have hfind : ∀ no : List Card,
        findCard ((l1 ++ setFields c u :: l2).map (applyOrder no u.Status)) id =
          some (applyOrder no u.Status (setFields c u)) := by
      intro no
      rw [findCard_map_pres (applyOrder no u.Status) (l1 ++ setFields c u :: l2) id
          (fun x => applyOrderFrom_ID 0 no u.Status x),
        findCard_append l1 l2 (setFields c u) id hl1 hc]
      rfl
    exact ⟨_, _, rfl, hfind _, applyOrderFrom_status 0 _ _ _ rfl⟩
  · rw [if_neg htrig]
    exact ⟨_, setFields c u, rfl, findCard_append l1 l2 (setFields c u) id hl1 hc, rfl⟩

/-- Witness for C9: moving a card into the empty-string column succeeds and
stores the empty string verbatim. -/
theorem status_accepted_verbatim_witness :
    (∃ b' c', updateCard ⟨[mkCard "a" "a" "ToDo" 0]⟩ "a" (mkCard "a" "a" "" 0) = .ok b' ∧
      findCard b'.Cards "a" = some c' ∧ c'.Status = (mkCard "a" "a" "" 0).Status) ∧
    ((createCard ⟨[mkCard "a" "a" "ToDo" 0]⟩ (mkCard "a" "a" "" 0) "g").2).Status =
      (mkCard "a" "a" "" 0).Status :=
  status_accepted_verbatim ⟨[mkCard "a" "a" "ToDo" 0]⟩ "a" (mkCard "a" "a" "" 0) "g"
    ⟨mkCard "a" "a" "ToDo" 0, by decide, rfl⟩

end Kban

namespace Kban

/-! ### Splice-position arithmetic on id lists -/

theorem clampPos_le (p : Int) (n : Nat) : clampPos p n ≤ n := by
  unfold clampPos
  by_cases h1 : p < 0
  · simp [h1]
  · rw [if_neg h1]
    by_cases h2 : (n : Int) < p
    · simp [h2]
    · rw [if_neg h2]
      omega

theorem mem_insertAt {α : Type} (ids : List α) (z w : α) (pos : Nat) :
    w ∈ ids.take pos ++ z :: ids.drop pos ↔ w = z ∨ w ∈ ids := by
  constructor
  · intro h
    rcases List.mem_append.mp h with h1 | h2
    · exact Or.inr (List.mem_of_mem_take h1)
    · rcases List.mem_cons.mp h2 with h3 | h4
      · exact Or.inl h3
      · exact Or.inr (List.mem_of_mem_drop h4)
  · intro h
    rcases h with rfl | h2
    · exact List.mem_append.mpr (Or.inr (List.mem_cons_self _ _))
    · rcases List.mem_append.mp ((List.take_append_drop pos ids).symm ▸ h2) with h3 | h4
      · exact List.mem_append.mpr (Or.inl h3)
      · exact List.mem_append.mpr (Or.inr (List.mem_cons_of_mem z h4))

theorem nodup_insertAt {α : Type} (ids : List α) (z : α) (pos : Nat)
    (hnd : ids.Nodup) (hz : z ∉ ids) : (ids.take pos ++ z :: ids.drop pos).Nodup := by
  rw [List.nodup_middle, List.nodup_cons, List.take_append_drop]
  exact ⟨hz, hnd⟩

theorem indexOf_insertAt_self {α : Type} [DecidableEq α] (ids : List α) (z : α) (pos : Nat)
    (hz : z ∉ ids) (hpos : pos ≤ ids.length) :
    List.indexOf z (ids.take pos ++ z :: ids.drop pos) = pos := by
  have hzt : z ∉ ids.take pos := fun h => hz (List.mem_of_mem_take h)
  rw [List.indexOf_append_of_not_mem hzt]
  have : List.indexOf z (z :: ids.drop pos) = 0 := by simp [List.indexOf_cons]
  rw [this, List.length_take]
  omega

theorem indexOf_insertAt_lt {α : Type} [DecidableEq α] (ids : List α) (z x : α)
    (pos j : Nat) (hnd : ids.Nodup) (hj : ids.get? j = some x) (hlt : j < pos)
    (hpos : pos ≤ ids.length) :
    List.indexOf x (ids.take pos ++ z :: ids.drop pos) = j := by
  rw [List.get?_eq_getElem?, List.getElem?_eq_some_iff] at hj
  obtain ⟨hjl, hx⟩ := hj
  have hjt : j < (ids.take pos).length := by
    rw [List.length_take]
    omega
  have hxt : (ids.take pos)[j] = x := by
    rw [List.getElem_take]
    exact hx
  have hmem : x ∈ ids.take pos := hxt ▸ List.getElem_mem _
  rw [List.indexOf_append_of_mem hmem]
  have hndt : (ids.take pos).Nodup := hnd.sublist (List.take_sublist pos ids)
  have := List.indexOf_getElem hndt j hjt
  rw [hxt] at this
  exact this

theorem indexOf_insertAt_ge {α : Type} [DecidableEq α] (ids : List α) (z x : α)
    (pos j : Nat) (hnd : ids.Nodup) (hz : z ∉ ids) (hj : ids.get? j = some x)
    (hge : pos ≤ j) (hpos : pos ≤ ids.length) :
    List.indexOf x (ids.take pos ++ z :: ids.drop pos) = j + 1 := by
  rw [List.get?_eq_getElem?, List.getElem?_eq_some_iff] at hj
  obtain ⟨hjl, hx⟩ := hj
  have hxmem : x ∈ ids := hx ▸ List.getElem_mem _
  have hidx : List.indexOf x ids = j := by
    have := List.indexOf_getElem hnd j hjl
    rw [hx] at this
    exact this
  have hxt : x ∉ ids.take pos := by
    intro hmem
    obtain ⟨i, hi, hxi⟩ := List.mem_iff_getElem.mp hmem
    have hil : i < ids.length := by
      have := hi
      rw [List.length_take] at this
      omega
    have : List.indexOf x ids = i := by
      have h2 := List.indexOf_getElem hnd i hil
      rw [List.getElem_take] at hxi
      rw [hxi] at h2
      exact h2
    rw [hidx] at this
    rw [List.length_take] at hi
    omega
  rw [List.indexOf_append_of_not_mem hxt]
  have hxz : (z == x) = false := by
    simp only [beq_eq_false_iff_ne, ne_eq]
    exact fun hzx => hz (hzx ▸ hxmem)
  have hcons : List.indexOf x (z :: ids.drop pos) = List.indexOf x (ids.drop pos) + 1 := by
    rw [List.indexOf_cons, hxz]
    rfl
  have hndd : (ids.drop pos).Nodup := hnd.sublist (List.drop_sublist pos ids)
  have hjd : j - pos < (ids.drop pos).length := by
    rw [List.length_drop]
    omega
  have hxd : (ids.drop pos)[j - pos] = x := by
    rw [List.getElem_drop]
    have : pos + (j - pos) = j := by omega
    simp only [this]
    exact hx
  have hdi : List.indexOf x (ids.drop pos) = j - pos := by
    have h2 := List.indexOf_getElem hndd (j - pos) hjd
    rw [hxd] at h2
    exact h2
  rw [hcons, hdi, List.length_take]
  omega

theorem map_indexOf_self_eq_range {α : Type} [DecidableEq α] (l : List α) (hnd : l.Nodup) :
    l.map (fun z => List.indexOf z l) = List.range l.length := by
  apply List.ext_getElem?
  intro n
  by_cases hn : n < l.length
  · rw [List.getElem?_map]
    have h1 : l[n]? = some l[n] := by
      rw [List.getElem?_eq_some_iff]
      exact ⟨hn, rfl⟩
    rw [h1, List.getElem?_range hn]
    simp [List.indexOf_getElem hnd n hn]
  · have h1 : l[n]? = none := by
      rw [List.getElem?_eq_none_iff]
      omega
    rw [List.getElem?_map, h1]
    have h2 : (List.range l.length)[n]? = none := by
      rw [List.getElem?_eq_none_iff]
      simp
      omega
    rw [h2]
    rfl

end Kban

namespace Kban

/-! ### Id bookkeeping in the first-occurrence split -/

theorem nodup_split (l1 l2 : List Card) (c' : Card)
    (hids : ((l1 ++ c' :: l2).map Card.ID).Nodup) :
    ((l1 ++ l2).map Card.ID).Nodup ∧ c'.ID ∉ (l1 ++ l2).map Card.ID := by
  rw [List.map_append, List.map_cons, List.nodup_middle, List.nodup_cons] at hids
  rw [List.map_append]
  exact ⟨hids.2, hids.1⟩

theorem split_ne_id (l1 l2 : List Card) (c' : Card) (id : String)
    (hids : ((l1 ++ c' :: l2).map Card.ID).Nodup) (hc : c'.ID = id) :
    (∀ x ∈ l1, x.ID ≠ id) ∧ (∀ x ∈ l2, x.ID ≠ id) := by
  obtain ⟨-, hnotin⟩ := nodup_split l1 l2 c' hids
  constructor <;> intro x hx hxid
  · exact hnotin (by
      rw [hc, ← hxid]
      exact List.mem_map_of_mem _ (List.mem_append_left l2 hx))
  · exact hnotin (by
      rw [hc, ← hxid]
      exact List.mem_map_of_mem _ (List.mem_append_right l1 hx))

theorem findCard_nodup (cards : List Card) (x : Card)
    (hnd : (cards.map Card.ID).Nodup) (hx : x ∈ cards) : findCard cards x.ID = some x := by
  induction cards with
  | nil => simp at hx
  | cons a rest ih =>
    rw [List.map_cons, List.nodup_cons] at hnd
    rcases List.mem_cons.mp hx with rfl | hxr
    · simp [findCard, List.find?_cons]
    · have hne : ¬ (a.ID = x.ID) := by
        intro he
        exact hnd.1 (he ▸ List.mem_map_of_mem Card.ID hxr)
      simp only [findCard, List.find?_cons]
      rw [show (decide (a.ID = x.ID)) = false by simp [hne]]
      exact ih hnd.2 hxr

theorem split_ids_setFields (l1 l2 : List Card) (c u : Card) :
    (l1 ++ setFields c u :: l2).map Card.ID = (l1 ++ c :: l2).map Card.ID := by
  simp [setFields]

theorem insertOrder_ids (others : List Card) (pos : Nat) (mc : Card) :
    (insertOrder others pos mc).map Card.ID =
      (others.map Card.ID).take pos ++ mc.ID :: (others.map Card.ID).drop pos := by
  unfold insertOrder
  simp [List.map_take, List.map_drop]

theorem column_ids_nodup (cards : List Card) (s : String)
    (h : (cards.map Card.ID).Nodup) : ((column cards s).map Card.ID).Nodup :=
  List.Nodup.sublist (List.Sublist.map Card.ID (List.filter_sublist cards)) h

/-! ### The reorder block as a map over the board -/

theorem reorder_result_eq (l1 l2 : List Card) (c' : Card) (id : String) (u : Card)
    (hids : ((l1 ++ c' :: l2).map Card.ID).Nodup) (hc : c'.ID = id)
    (hcs : c'.Status = u.Status) :
    reorderColumn (l1 ++ c' :: l2) id u =
      (l1 ++ c' :: l2).map
        (applyOrder
          (insertOrder (column (l1 ++ l2) u.Status)
            (clampPos u.Position (column (l1 ++ l2) u.Status).length) c')
          u.Status) := by
  obtain ⟨hl1, hl2⟩ := split_ne_id l1 l2 c' id hids hc
  rw [reorderColumn_eq l1 l2 c' id u hl1 hc,
      filter_others_eq l1 l2 c' id u.Status hl1 hl2 hc]
  rw [renumber_eq_map]
  have hmc : ({ c' with Status := u.Status } : Card) = c' := by
    rw [← hcs]
  rw [hmc]

end Kban

namespace Kban

theorem reorder_target_perm (l1 l2 : List Card) (c' : Card) (id : String) (u : Card)
    (hids : ((l1 ++ c' :: l2).map Card.ID).Nodup) (hc : c'.ID = id)
    (hcs : c'.Status = u.Status) :
    ((column ((l1 ++ c' :: l2).map
          (applyOrder
            (insertOrder (column (l1 ++ l2) u.Status)
              (clampPos u.Position (column (l1 ++ l2) u.Status).length) c')
            u.Status))
        u.Status).map Card.Position).Perm
      ((List.range ((column (l1 ++ l2) u.Status).length + 1)).map (fun n : Nat => (n : Int))) ∧
    (column ((l1 ++ c' :: l2).map
        (applyOrder
          (insertOrder (column (l1 ++ l2) u.Status)
            (clampPos u.Position (column (l1 ++ l2) u.Status).length) c')
          u.Status))
      u.Status).length = (column (l1 ++ l2) u.Status).length + 1 := by
  obtain ⟨hnd12, hnotin⟩ := nodup_split l1 l2 c' hids
  set oth := column (l1 ++ l2) u.Status with hoth
  set pos := clampPos u.Position oth.length with hposdef
  set NO := insertOrder oth pos c' with hNOdef
  set f := applyOrder NO u.Status with hfdef
  have hothsub : List.Sublist oth (l1 ++ l2) := List.filter_sublist _
  have hothids : (oth.map Card.ID).Nodup :=
    List.Nodup.sublist (List.Sublist.map Card.ID hothsub) hnd12
  have hidnot : id ∉ oth.map Card.ID := by
    intro hmem
    exact hnotin (hc ▸ (List.Sublist.map Card.ID hothsub).subset hmem)
  have hposle : pos ≤ (oth.map Card.ID).length := by
    rw [List.length_map, hposdef]
    exact clampPos_le _ _
  have hNOids : NO.map Card.ID =
      (oth.map Card.ID).take pos ++ id :: (oth.map Card.ID).drop pos := by
    rw [hNOdef, insertOrder_ids, hc]
  have hNOnd : (NO.map Card.ID).Nodup := by
    rw [hNOids]
    exact nodup_insertAt _ _ _ hothids hidnot
  have hmemNO : ∀ z, z ∈ NO.map Card.ID ↔ z = id ∨ z ∈ oth.map Card.ID := by
    intro z
    rw [hNOids]
    exact mem_insertAt _ _ _ _
  have hstepA : column ((l1 ++ c' :: l2).map f) u.Status =
      ((l1 ++ c' :: l2).filter (fun x => decide (x.ID ∈ NO.map Card.ID))).map f := by
    unfold column
    rw [List.filter_map]
    congr 1
    apply List.filter_congr
    intro x hxmem
    simp only [Function.comp]
    by_cases hxid : x.ID ∈ NO.map Card.ID
    · have hfs : (f x).Status = u.Status := by
        rw [hfdef, applyOrder_mem NO u.Status x hNOnd hxid]
      simp [hfs, hxid]
    · have hfx : f x = x := by
        rw [hfdef]
        exact applyOrder_not_mem NO u.Status x hxid
      have hxs : ¬ (x.Status = u.Status) := by
        intro hxs
        apply hxid
        rw [hmemNO x.ID]
        by_cases hxc : x.ID = id
        · exact Or.inl hxc
        · right
          have hx12 : x ∈ l1 ++ l2 := by
            rcases List.mem_append.mp hxmem with h1 | h2
            · exact List.mem_append_left _ h1
            · rcases List.mem_cons.mp h2 with rfl | h3
              · exact absurd hc hxc
              · exact List.mem_append_right _ h3
          have hxoth : x ∈ oth := by
            rw [hoth]
            unfold column
            exact List.mem_filter.mpr ⟨hx12, by simp [hxs]⟩
          exact List.mem_map_of_mem Card.ID hxoth
      simp [hfx, hxs, hxid]
  have hfilnd : (((l1 ++ c' :: l2).filter
      (fun x => decide (x.ID ∈ NO.map Card.ID))).map Card.ID).Nodup :=
    List.Nodup.sublist (List.Sublist.map Card.ID (List.filter_sublist _)) hids
  have hstepB : (((l1 ++ c' :: l2).filter
      (fun x => decide (x.ID ∈ NO.map Card.ID))).map Card.ID).Perm (NO.map Card.ID) := by
    rw [List.perm_ext_iff_of_nodup hfilnd hNOnd]
    intro z
    constructor
    · intro hz
      obtain ⟨x, hx, hxz⟩ := List.mem_map.mp hz
      have hdec := (List.mem_filter.mp hx).2
      simp only [decide_eq_true_eq] at hdec
      exact hxz ▸ hdec
    · intro hz
      rcases (hmemNO z).mp hz with rfl | hzo
      · refine List.mem_map.mpr ⟨c', List.mem_filter.mpr
          ⟨List.mem_append_right l1 (List.mem_cons_self c' l2), ?_⟩, hc⟩
        simp only [decide_eq_true_eq, hc]
        exact hz
      · obtain ⟨x, hxo, hxz⟩ := List.mem_map.mp hzo
        have hx12 : x ∈ l1 ++ l2 := hothsub.subset hxo
        have hxc1 : x ∈ l1 ++ c' :: l2 := by
          rcases List.mem_append.mp hx12 with h1 | h2
          · exact List.mem_append_left _ h1
          · exact List.mem_append_right _ (List.mem_cons_of_mem c' h2)
        refine List.mem_map.mpr ⟨x, List.mem_filter.mpr ⟨hxc1, ?_⟩, hxz⟩
        simp only [decide_eq_true_eq, hxz]
        exact hz
  have hstepC : (column ((l1 ++ c' :: l2).map f) u.Status).map Card.Position =
      (((l1 ++ c' :: l2).filter (fun x => decide (x.ID ∈ NO.map Card.ID))).map Card.ID).map
        (fun z => (List.indexOf z (NO.map Card.ID) : Int)) := by
    rw [hstepA, List.map_map, List.map_map]
    apply List.map_congr_left
    intro x hx
    have hxid : x.ID ∈ NO.map Card.ID := by
      have hdec := (List.mem_filter.mp hx).2
      simpa using hdec
    simp only [Function.comp_apply]
    rw [hfdef, applyOrder_mem NO u.Status x hNOnd hxid]
  have hstepD : (NO.map Card.ID).map (fun z => (List.indexOf z (NO.map Card.ID) : Int)) =
      (List.range (NO.map Card.ID).length).map (fun n : Nat => (n : Int)) := by
    have h1 : (fun z => (List.indexOf z (NO.map Card.ID) : Int)) =
        (fun n : Nat => (n : Int)) ∘ (fun z => List.indexOf z (NO.map Card.ID)) := rfl
    rw [h1, ← List.map_map, map_indexOf_self_eq_range _ hNOnd]
  have hlen1 : (NO.map Card.ID).length = oth.length + 1 := by
    rw [hNOids]
    simp only [List.length_append, List.length_cons, List.length_take, List.length_drop,
      List.length_map]
    have := hposle
    rw [List.length_map] at this
    omega
  have hcollen : (column ((l1 ++ c' :: l2).map f) u.Status).length = oth.length + 1 := by
    rw [hstepA, List.length_map, ← List.length_map
      ((l1 ++ c' :: l2).filter (fun x => decide (x.ID ∈ NO.map Card.ID))) Card.ID,
      hstepB.length_eq, hlen1]
  constructor
  · rw [hstepC]
    have hperm := hstepB.map (fun z => (List.indexOf z (NO.map Card.ID) : Int))
    rw [hstepD, hlen1] at hperm
    exact hperm
  · exact hcollen

end Kban

namespace Kban

theorem column_append_middle_sublist (l1 l2 : List Card) (c : Card) (s : String) :
    List.Sublist (column (l1 ++ l2) s) (column (l1 ++ c :: l2) s) := by
  unfold column
  rw [List.filter_append, List.filter_append, List.filter_cons]
  by_cases hc : decide (c.Status = s) = true
  · rw [if_pos hc]
    exact (List.Sublist.cons c (List.Sublist.refl _)).append_left _
  · rw [if_neg hc]

theorem reorder_other_column_sublist (l1 l2 : List Card) (c' : Card) (id : String)
    (u : Card) (s : String)
    (hids : ((l1 ++ c' :: l2).map Card.ID).Nodup) (hc : c'.ID = id)
    (hcs : c'.Status = u.Status) (hs : s ≠ u.Status) :
    List.Sublist
      ((column ((l1 ++ c' :: l2).map
          (applyOrder
            (insertOrder (column (l1 ++ l2) u.Status)
              (clampPos u.Position (column (l1 ++ l2) u.Status).length) c')
            u.Status)) s).map Card.Position)
      ((column (l1 ++ l2) s).map Card.Position) := by
  obtain ⟨hnd12, hnotin⟩ := nodup_split l1 l2 c' hids
  set oth := column (l1 ++ l2) u.Status with hoth
  set pos := clampPos u.Position oth.length with hposdef
  set NO := insertOrder oth pos c' with hNOdef
  set f := applyOrder NO u.Status with hfdef
  have hothsub : List.Sublist oth (l1 ++ l2) := List.filter_sublist _
  have hothids : (oth.map Card.ID).Nodup :=
    List.Nodup.sublist (List.Sublist.map Card.ID hothsub) hnd12
  have hidnot : id ∉ oth.map Card.ID := by
    intro hmem
    exact hnotin (hc ▸ (List.Sublist.map Card.ID hothsub).subset hmem)
  have hNOids : NO.map Card.ID =
      (oth.map Card.ID).take pos ++ id :: (oth.map Card.ID).drop pos := by
    rw [hNOdef, insertOrder_ids, hc]
  have hNOnd : (NO.map Card.ID).Nodup := by
    rw [hNOids]
    exact nodup_insertAt _ _ _ hothids hidnot
  have hstep1 : column ((l1 ++ c' :: l2).map f) s =
      (l1 ++ c' :: l2).filter
        (fun x => decide (x.ID ∉ NO.map Card.ID) && decide (x.Status = s)) := by
    unfold column
    rw [List.filter_map]
    have hcong : (l1 ++ c' :: l2).filter
        (fun x => (fun y => decide (y.Status = s)) (f x)) =
        (l1 ++ c' :: l2).filter
          (fun x => decide (x.ID ∉ NO.map Card.ID) && decide (x.Status = s)) := by
      apply List.filter_congr
      intro x hxmem
      by_cases hxid : x.ID ∈ NO.map Card.ID
      · have hfs : (f x).Status = u.Status := by
          rw [hfdef, applyOrder_mem NO u.Status x hNOnd hxid]
        simp [hfs, hxid, Ne.symm hs]
      · have hfx : f x = x := by
          rw [hfdef]
          exact applyOrder_not_mem NO u.Status x hxid
        simp [hfx, hxid]
    rw [show ((fun y => decide (y.Status = s)) ∘ f) =
        (fun x => (fun y => decide (y.Status = s)) (f x)) from rfl, hcong]
    have hid : ∀ x ∈ (l1 ++ c' :: l2).filter
        (fun x => decide (x.ID ∉ NO.map Card.ID) && decide (x.Status = s)), f x = x := by
      intro x hx
      have hdec := (List.mem_filter.mp hx).2
      rw [Bool.and_eq_true] at hdec
      have : x.ID ∉ NO.map Card.ID := by simpa using hdec.1
      rw [hfdef]
      exact applyOrder_not_mem NO u.Status x this
    rw [List.map_congr_left hid]
    simp
  rw [hstep1]
  have hstep2 : List.Sublist
      ((l1 ++ c' :: l2).filter
        (fun x => decide (x.ID ∉ NO.map Card.ID) && decide (x.Status = s)))
      (column (l1 ++ l2) s) := by
    have h1 : (l1 ++ c' :: l2).filter
        (fun x => decide (x.ID ∉ NO.map Card.ID) && decide (x.Status = s)) =
        ((l1 ++ c' :: l2).filter (fun x => decide (x.Status = s))).filter
          (fun x => decide (x.ID ∉ NO.map Card.ID)) := by
      rw [List.filter_filter]
    rw [h1]
    have h2 : (l1 ++ c' :: l2).filter (fun x => decide (x.Status = s)) =
        column (l1 ++ l2) s := by
      unfold column
      rw [List.filter_append, List.filter_append, List.filter_cons]
      have : (decide (c'.Status = s)) = false := by
        simp only [decide_eq_false_iff_not]
        rw [hcs]
        exact Ne.symm hs
      rw [this]
      simp
    rw [h2] at *
    exact List.filter_sublist _
  exact List.Sublist.map Card.Position hstep2

theorem reorder_moving_card (l1 l2 : List Card) (c' : Card) (id : String) (u : Card)
    (hids : ((l1 ++ c' :: l2).map Card.ID).Nodup) (hc : c'.ID = id)
    (hcs : c'.Status = u.Status) :
    findCard ((l1 ++ c' :: l2).map
        (applyOrder
          (insertOrder (column (l1 ++ l2) u.Status)
            (clampPos u.Position (column (l1 ++ l2) u.Status).length) c')
          u.Status)) id =
      some { c' with
        Position := ((clampPos u.Position (column (l1 ++ l2) u.Status).length : Nat) : Int),
        Status := u.Status } := by
  obtain ⟨hl1, hl2⟩ := split_ne_id l1 l2 c' id hids hc
  obtain ⟨hnd12, hnotin⟩ := nodup_split l1 l2 c' hids
  set oth := column (l1 ++ l2) u.Status with hoth
  set pos := clampPos u.Position oth.length with hposdef
  set NO := insertOrder oth pos c' with hNOdef
  have hothsub : List.Sublist oth (l1 ++ l2) := List.filter_sublist _
  have hothids : (oth.map Card.ID).Nodup :=
    List.Nodup.sublist (List.Sublist.map Card.ID hothsub) hnd12
  have hidnot : id ∉ oth.map Card.ID := by
    intro hmem
    exact hnotin (hc ▸ (List.Sublist.map Card.ID hothsub).subset hmem)
  have hposle : pos ≤ (oth.map Card.ID).length := by
    rw [List.length_map, hposdef]
    exact clampPos_le _ _
  have hNOids : NO.map Card.ID =
      (oth.map Card.ID).take pos ++ id :: (oth.map Card.ID).drop pos := by
    rw [hNOdef, insertOrder_ids, hc]
  have hNOnd : (NO.map Card.ID).Nodup := by
    rw [hNOids]
    exact nodup_insertAt _ _ _ hothids hidnot
  rw [findCard_map_pres (applyOrder NO u.Status) (l1 ++ c' :: l2) id
      (fun x => applyOrderFrom_ID 0 NO u.Status x),
    findCard_append l1 l2 c' id hl1 hc]
  have hmem : c'.ID ∈ NO.map Card.ID := by
    rw [hNOids, hc]
    exact (mem_insertAt _ _ _ _).mpr (Or.inl rfl)
  rw [Option.map_some', applyOrder_mem NO u.Status c' hNOnd hmem]
  have hidx : List.indexOf c'.ID (NO.map Card.ID) = pos := by
    rw [hNOids, hc]
    exact indexOf_insertAt_self _ _ _ hidnot hposle
  rw [hidx]

theorem reorder_other_card (l1 l2 : List Card) (c' : Card) (id : String) (u : Card)
    (j : Nat) (x : Card)
    (hids : ((l1 ++ c' :: l2).map Card.ID).Nodup) (hc : c'.ID = id)
    (hcs : c'.Status = u.Status)
    (hj : (column (l1 ++ l2) u.Status).get? j = some x) :
    findCard ((l1 ++ c' :: l2).map
        (applyOrder
          (insertOrder (column (l1 ++ l2) u.Status)
            (clampPos u.Position (column (l1 ++ l2) u.Status).length) c')
          u.Status)) x.ID =
      some { x with
        Position :=
          if j < clampPos u.Position (column (l1 ++ l2) u.Status).length
          then (j : Int) else ((j + 1 : Nat) : Int),
        Status := u.Status } := by
  obtain ⟨hnd12, hnotin⟩ := nodup_split l1 l2 c' hids
  set oth := column (l1 ++ l2) u.Status with hoth
  set pos := clampPos u.Position oth.length with hposdef
  set NO := insertOrder oth pos c' with hNOdef
  have hothsub : List.Sublist oth (l1 ++ l2) := List.filter_sublist _
  have hothids : (oth.map Card.ID).Nodup :=
    List.Nodup.sublist (List.Sublist.map Card.ID hothsub) hnd12
  have hidnot : id ∉ oth.map Card.ID := by
    intro hmem
    exact hnotin (hc ▸ (List.Sublist.map Card.ID hothsub).subset hmem)
  have hposle : pos ≤ (oth.map Card.ID).length := by
    rw [List.length_map, hposdef]
    exact clampPos_le _ _
  have hNOids : NO.map Card.ID =
      (oth.map Card.ID).take pos ++ id :: (oth.map Card.ID).drop pos := by
    rw [hNOdef, insertOrder_ids, hc]
  have hNOnd : (NO.map Card.ID).Nodup := by
    rw [hNOids]
    exact nodup_insertAt _ _ _ hothids hidnot
  have hxoth : x ∈ oth := by
    rw [List.get?_eq_getElem?, List.getElem?_eq_some_iff] at hj
    obtain ⟨hjl, hx⟩ := hj
    exact hx ▸ List.getElem_mem _
  have hjid : (oth.map Card.ID).get? j = some x.ID := by
    rw [List.get?_eq_getElem?, List.getElem?_map]
    rw [List.get?_eq_getElem?] at hj
    rw [hj]
    rfl
  have hx12 : x ∈ l1 ++ l2 := hothsub.subset hxoth
  have hxc1 : x ∈ l1 ++ c' :: l2 := by
    rcases List.mem_append.mp hx12 with h1 | h2
    · exact List.mem_append_left _ h1
    · exact List.mem_append_right _ (List.mem_cons_of_mem c' h2)
  rw [findCard_map_pres (applyOrder NO u.Status) (l1 ++ c' :: l2) x.ID
      (fun y => applyOrderFrom_ID 0 NO u.Status y),
    findCard_nodup (l1 ++ c' :: l2) x hids hxc1]
  have hmem : x.ID ∈ NO.map Card.ID := by
    rw [hNOids]
    exact (mem_insertAt _ _ _ _).mpr (Or.inr (List.mem_map_of_mem Card.ID hxoth))
  rw [Option.map_some', applyOrder_mem NO u.Status x hNOnd hmem]
  have hidx : List.indexOf x.ID (NO.map Card.ID) =
      if j < pos then j else j + 1 := by
    rw [hNOids]
    by_cases hlt : j < pos
    · rw [if_pos hlt]
      exact indexOf_insertAt_lt _ _ _ _ _ hothids hjid hlt hposle
    · rw [if_neg hlt]
      exact indexOf_insertAt_ge _ _ _ _ _ hothids hidnot hjid (by omega) hposle
  rw [hidx]
  by_cases hlt : j < pos
  · rw [if_pos hlt, if_pos hlt]
  · rw [if_neg hlt, if_neg hlt]

end Kban

namespace Kban

theorem reorder_dense (l1 l2 : List Card) (c' : Card) (id : String) (u : Card)
    (hids : ((l1 ++ c' :: l2).map Card.ID).Nodup) (hc : c'.ID = id)
    (hcs : c'.Status = u.Status) :
    DenseColumn ((l1 ++ c' :: l2).map
        (applyOrder
          (insertOrder (column (l1 ++ l2) u.Status)
            (clampPos u.Position (column (l1 ++ l2) u.Status).length) c')
          u.Status)) u.Status := by
  obtain ⟨hperm, hlen⟩ := reorder_target_perm l1 l2 c' id u hids hc hcs
  unfold DenseColumn
  rw [hlen]
  exact hperm

/-- C4: every update that triggers repositioning renumbers the rebuilt
destination column by 0-based index, so the destination column of the
result is densely indexed `{0, …, m-1}`, and the moving card ends with the
request's target status (at the clamped index). -/
theorem update_dense_destination (l1 l2 : List Card) (c : Card) (id : String) (u : Card)
    (hids : ((l1 ++ c :: l2).map Card.ID).Nodup) (hc : c.ID = id)
    (htrig : c.Status ≠ u.Status ∨ c.Position ≠ u.Position) :
    ∃ b', updateCard ⟨l1 ++ c :: l2⟩ id u = .ok b' ∧
      DenseColumn b'.Cards u.Status ∧
      ∃ mc, findCard b'.Cards id = some mc ∧ mc.Status = u.Status ∧
        mc.Position =
          ((clampPos u.Position (column (l1 ++ l2) u.Status).length : Nat) : Int) := by
  obtain ⟨hl1, hl2⟩ := split_ne_id l1 l2 c id hids hc
  have hids' : ((l1 ++ setFields c u :: l2).map Card.ID).Nodup := by
    rw [split_ids_setFields]
    exact hids
  rw [updateCard_eq_split l1 l2 c id u hl1 hc, if_pos htrig,
      reorder_result_eq l1 l2 (setFields c u) id u hids' hc rfl]
  exact ⟨_, rfl, reorder_dense l1 l2 (setFields c u) id u hids' hc rfl, _,
    reorder_moving_card l1 l2 (setFields c u) id u hids' hc rfl, rfl, rfl⟩

/-- Witness for C4: moving a card out of range into another column yields a
dense destination column. -/
theorem update_dense_destination_witness :
    ∃ b', updateCard ⟨[] ++ mkCard "a" "a" "ToDo" 0 :: [mkCard "b" "b" "ToDo" 1]⟩ "a"
        (mkCard "a" "a" "Doing" 5) = .ok b' ∧
      DenseColumn b'.Cards (mkCard "a" "a" "Doing" 5).Status ∧
      ∃ mc, findCard b'.Cards "a" = some mc ∧
        mc.Status = (mkCard "a" "a" "Doing" 5).Status ∧
        mc.Position =
          ((clampPos (mkCard "a" "a" "Doing" 5).Position
              (column ([] ++ [mkCard "b" "b" "ToDo" 1])
                (mkCard "a" "a" "Doing" 5).Status).length : Nat) : Int) :=
  update_dense_destination [] [mkCard "b" "b" "ToDo" 1] (mkCard "a" "a" "ToDo" 0) "a"
    (mkCard "a" "a" "Doing" 5) (by decide) (by decide) (by decide)

/-- C2 (amended): when an update triggers repositioning, the "others" of the
target column are taken in their existing order in the stored card list
(which coincides with ascending position only when the column is stored
sorted), the moving card is spliced at the clamped index, and the sequence
is renumbered; the ToDo scenario A,B,C with C moved to 0 yields C0,A1,B2. -/
theorem update_splices_board_order (l1 l2 : List Card) (c : Card) (id : String) (u : Card)
    (hids : ((l1 ++ c :: l2).map Card.ID).Nodup) (hc : c.ID = id)
    (htrig : c.Status ≠ u.Status ∨ c.Position ≠ u.Position) :
    ∃ b', updateCard ⟨l1 ++ c :: l2⟩ id u = .ok b' ∧
      (∃ mc, findCard b'.Cards id = some mc ∧ mc.Status = u.Status ∧
        mc.Position = ((clampPos u.Position (column (l1 ++ l2) u.Status).length : Nat) : Int)) ∧
      ∀ j x, (column (l1 ++ l2) u.Status).get? j = some x →
        ∃ y, findCard b'.Cards x.ID = some y ∧ y.Status = u.Status ∧
          y.Position =
            if j < clampPos u.Position (column (l1 ++ l2) u.Status).length
            then (j : Int) else ((j + 1 : Nat) : Int) := by
  obtain ⟨hl1, hl2⟩ := split_ne_id l1 l2 c id hids hc
  have hids' : ((l1 ++ setFields c u :: l2).map Card.ID).Nodup := by
    rw [split_ids_setFields]
    exact hids
  rw [updateCard_eq_split l1 l2 c id u hl1 hc, if_pos htrig,
      reorder_result_eq l1 l2 (setFields c u) id u hids' hc rfl]
  refine ⟨_, rfl, ⟨_, reorder_moving_card l1 l2 (setFields c u) id u hids' hc rfl,
    rfl, rfl⟩, ?_⟩
  intro j x hj
  exact ⟨_, reorder_other_card l1 l2 (setFields c u) id u j x hids' hc rfl hj, rfl, rfl⟩

/-- Witness for C2 at the spec scenario: ToDo holds A(0), B(1), C(2) in
board order; moving C to position 0 puts C at 0, A at 1, B at 2. -/
theorem update_splices_board_order_witness :
    ∃ b', updateCard ⟨[mkCard "A" "A" "ToDo" 0, mkCard "B" "B" "ToDo" 1] ++
        mkCard "C" "C" "ToDo" 2 :: []⟩ "C" (mkCard "C" "C" "ToDo" 0) = .ok b' ∧
      (∃ mc, findCard b'.Cards "C" = some mc ∧
        mc.Status = (mkCard "C" "C" "ToDo" 0).Status ∧
        mc.Position =
          ((clampPos (mkCard "C" "C" "ToDo" 0).Position
            (column ([mkCard "A" "A" "ToDo" 0, mkCard "B" "B" "ToDo" 1] ++ [])
              (mkCard "C" "C" "ToDo" 0).Status).length : Nat) : Int)) ∧
      ∀ j x, (column ([mkCard "A" "A" "ToDo" 0, mkCard "B" "B" "ToDo" 1] ++ [])
          (mkCard "C" "C" "ToDo" 0).Status).get? j = some x →
        ∃ y, findCard b'.Cards x.ID = some y ∧
          y.Status = (mkCard "C" "C" "ToDo" 0).Status ∧
          y.Position =
            if j < clampPos (mkCard "C" "C" "ToDo" 0).Position
                (column ([mkCard "A" "A" "ToDo" 0, mkCard "B" "B" "ToDo" 1] ++ [])
                  (mkCard "C" "C" "ToDo" 0).Status).length
            then (j : Int) else ((j + 1 : Nat) : Int) :=
  update_splices_board_order [mkCard "A" "A" "ToDo" 0, mkCard "B" "B" "ToDo" 1] []
    (mkCard "C" "C" "ToDo" 2) "C" (mkCard "C" "C" "ToDo" 0)
    (by decide) (by decide) (by decide)

/-- Counterexample to C2 as stated: on a reachable board whose stored order
disagrees with position order (obtained by moving C to the front), the code
splices the others in stored order, not in ascending-position order, and
the two disagree. -/
theorem update_splices_board_order_counterexample :
    Reachable ⟨[mkCard "A" "A" "ToDo" 1, mkCard "B" "B" "ToDo" 2, mkCard "C" "C" "ToDo" 0]⟩ ∧
    updateCard ⟨[mkCard "A" "A" "ToDo" 1, mkCard "B" "B" "ToDo" 2, mkCard "C" "C" "ToDo" 0]⟩
        "B" (mkCard "B" "B" "ToDo" 0) =
      .ok ⟨[mkCard "A" "A" "ToDo" 1, mkCard "B" "B" "ToDo" 0, mkCard "C" "C" "ToDo" 2]⟩ ∧
    updateCardSpecOrdered
        ⟨[mkCard "A" "A" "ToDo" 1, mkCard "B" "B" "ToDo" 2, mkCard "C" "C" "ToDo" 0]⟩
        "B" (mkCard "B" "B" "ToDo" 0) =
      .ok ⟨[mkCard "A" "A" "ToDo" 2, mkCard "B" "B" "ToDo" 0, mkCard "C" "C" "ToDo" 1]⟩ ∧
    (⟨[mkCard "A" "A" "ToDo" 1, mkCard "B" "B" "ToDo" 0, mkCard "C" "C" "ToDo" 2]⟩ : Board) ≠
      ⟨[mkCard "A" "A" "ToDo" 2, mkCard "B" "B" "ToDo" 0, mkCard "C" "C" "ToDo" 1]⟩ := by
  refine ⟨?_, rfl, rfl, by decide⟩
  have h1 : Reachable ⟨[mkCard "A" "A" "ToDo" 0]⟩ :=
    Reachable.create ⟨[]⟩ _ (mkCard "q" "A" "ToDo" 7) "A" Reachable.empty
      (by decide) (by decide)
  have h2 : Reachable ⟨[mkCard "A" "A" "ToDo" 0, mkCard "B" "B" "ToDo" 1]⟩ :=
    Reachable.create _ _ (mkCard "q" "B" "ToDo" 7) "B" h1 (by decide) (by decide)
  have h3 : Reachable ⟨[mkCard "A" "A" "ToDo" 0, mkCard "B" "B" "ToDo" 1,
      mkCard "C" "C" "ToDo" 2]⟩ :=
    Reachable.create _ _ (mkCard "q" "C" "ToDo" 7) "C" h2 (by decide) (by decide)
  exact Reachable.update _ _ "C" (mkCard "C" "C" "ToDo" 0) h3 rfl

end Kban

namespace Kban

/-- C3 (amended): when both the original request and the boundary request
trigger repositioning, the result depends on the requested position only
through its clamped value — so -5 behaves as 0 and an oversized position
behaves as the column length; the two requests coincide only under that
proviso (a boundary request equal to the card's current status and
position skips repositioning instead). -/
theorem clamp_equivalence (l1 l2 : List Card) (c : Card) (id : String) (u : Card)
    (p2 : Int)
    (hids : ((l1 ++ c :: l2).map Card.ID).Nodup) (hc : c.ID = id)
    (htrig1 : c.Status ≠ u.Status ∨ c.Position ≠ u.Position)
    (htrig2 : c.Status ≠ u.Status ∨ c.Position ≠ p2)
    (hclamp : clampPos u.Position (column (l1 ++ l2) u.Status).length =
      clampPos p2 (column (l1 ++ l2) u.Status).length) :
    updateCard ⟨l1 ++ c :: l2⟩ id u =
      updateCard ⟨l1 ++ c :: l2⟩ id { u with Position := p2 } := by
  obtain ⟨hl1, hl2⟩ := split_ne_id l1 l2 c id hids hc
  obtain ⟨hnd12, hnotin⟩ := nodup_split l1 l2 c hids
  have hids1 : ((l1 ++ setFields c u :: l2).map Card.ID).Nodup := by
    rw [split_ids_setFields]
    exact hids
  have hids2 : ((l1 ++ setFields c { u with Position := p2 } :: l2).map Card.ID).Nodup := by
    rw [split_ids_setFields]
    exact hids
  have htrig2' : c.Status ≠ ({ u with Position := p2 } : Card).Status ∨
      c.Position ≠ ({ u with Position := p2 } : Card).Position := htrig2
  rw [updateCard_eq_split l1 l2 c id u hl1 hc,
      updateCard_eq_split l1 l2 c id { u with Position := p2 } hl1 hc,
      if_pos htrig1, if_pos htrig2',
      reorder_result_eq l1 l2 (setFields c u) id u hids1 hc rfl,
      reorder_result_eq l1 l2 (setFields c { u with Position := p2 }) id
        { u with Position := p2 } hids2 hc rfl,
      show ({ u with Position := p2 } : Card).Status = u.Status from rfl,
      show ({ u with Position := p2 } : Card).Position = p2 from rfl,
      ← hclamp]
  set oth := column (l1 ++ l2) u.Status with hoth
  set pos := clampPos u.Position oth.length with hposdef
  have hothsub : List.Sublist oth (l1 ++ l2) := List.filter_sublist _
  have hothids : (oth.map Card.ID).Nodup :=
    List.Nodup.sublist (List.Sublist.map Card.ID hothsub) hnd12
  have hcnot : c.ID ∉ oth.map Card.ID := fun hmem =>
    hnotin ((List.Sublist.map Card.ID hothsub).subset hmem)
  have hNOeq : (insertOrder oth pos (setFields c u)).map Card.ID =
      (insertOrder oth pos (setFields c { u with Position := p2 })).map Card.ID := by
    rw [insertOrder_ids, insertOrder_ids]
    exact rfl
  have hNO1ids : (insertOrder oth pos (setFields c u)).map Card.ID =
      (oth.map Card.ID).take pos ++ c.ID :: (oth.map Card.ID).drop pos := by
    rw [insertOrder_ids]
    exact rfl
  have hNO1nd : ((insertOrder oth pos (setFields c u)).map Card.ID).Nodup := by
    rw [hNO1ids]
    exact nodup_insertAt _ _ _ hothids hcnot
  have hNO2nd : ((insertOrder oth pos
      (setFields c { u with Position := p2 })).map Card.ID).Nodup := by
    rw [← hNOeq]
    exact hNO1nd
  have hmem1 : (setFields c u).ID ∈ (insertOrder oth pos (setFields c u)).map Card.ID := by
    rw [hNO1ids]
    exact (mem_insertAt _ _ _ _).mpr (Or.inl rfl)
  have hmem2 : (setFields c { u with Position := p2 }).ID ∈
      (insertOrder oth pos (setFields c { u with Position := p2 })).map Card.ID := by
    rw [← hNOeq, hNO1ids]
    exact (mem_insertAt _ _ _ _).mpr (Or.inl rfl)
  have hfeq : ∀ x, applyOrder (insertOrder oth pos (setFields c u)) u.Status x =
      applyOrder (insertOrder oth pos (setFields c { u with Position := p2 }))
        u.Status x :=
    fun x => applyOrderFrom_congr_ids 0 _ _ u.Status x hNOeq
  have hm : applyOrder (insertOrder oth pos (setFields c u)) u.Status (setFields c u) =
      applyOrder (insertOrder oth pos (setFields c { u with Position := p2 }))
        u.Status (setFields c { u with Position := p2 }) := by
    rw [applyOrder_mem _ _ _ hNO1nd hmem1, applyOrder_mem _ _ _ hNO2nd hmem2, hNOeq]
    exact rfl
  have e1 : l1.map (applyOrder (insertOrder oth pos (setFields c u)) u.Status) =
      l1.map (applyOrder (insertOrder oth pos
        (setFields c { u with Position := p2 })) u.Status) :=
    List.map_congr_left (fun x _ => hfeq x)
  have e2 : l2.map (applyOrder (insertOrder oth pos (setFields c u)) u.Status) =
      l2.map (applyOrder (insertOrder oth pos
        (setFields c { u with Position := p2 })) u.Status) :=
    List.map_congr_left (fun x _ => hfeq x)
  have hlist : (l1 ++ setFields c u :: l2).map
      (applyOrder (insertOrder oth pos (setFields c u)) u.Status) =
      (l1 ++ setFields c { u with Position := p2 } :: l2).map
        (applyOrder (insertOrder oth pos
          (setFields c { u with Position := p2 })) u.Status) := by
    rw [List.map_append, List.map_append, List.map_cons, List.map_cons, e1, e2, hm]
  rw [hlist]

/-- Witness for C3 (amended) : requesting -5 and requesting 0 agree when
both requests genuinely move the card. -/
theorem clamp_equivalence_witness :
    updateCard ⟨[mkCard "a" "a" "ToDo" 0] ++ mkCard "b" "b" "ToDo" 1 :: []⟩ "b"
        (mkCard "b" "b" "ToDo" (-5)) =
      updateCard ⟨[mkCard "a" "a" "ToDo" 0] ++ mkCard "b" "b" "ToDo" 1 :: []⟩ "b"
        { mkCard "b" "b" "ToDo" (-5) with Position := 0 } :=
  clamp_equivalence [mkCard "a" "a" "ToDo" 0] [] (mkCard "b" "b" "ToDo" 1) "b"
    (mkCard "b" "b" "ToDo" (-5)) 0 (by decide) (by decide) (by decide) (by decide)
    (by decide)

/-- Counterexample to C3 as stated: on a reachable board whose ToDo column
is [a(0), b(2)] (a delete left a gap), requesting position -5 for card a
triggers repositioning and renumbers b to 1, while requesting position 0 is
a repositioning no-op that leaves b at 2 — different resulting boards. -/
theorem clamp_equivalence_counterexample :
    Reachable ⟨[mkCard "a" "a" "ToDo" 0, mkCard "b" "b" "ToDo" 2]⟩ ∧
    updateCard ⟨[mkCard "a" "a" "ToDo" 0, mkCard "b" "b" "ToDo" 2]⟩ "a"
        (mkCard "a" "a" "ToDo" (-5)) =
      .ok ⟨[mkCard "a" "a" "ToDo" 0, mkCard "b" "b" "ToDo" 1]⟩ ∧
    updateCard ⟨[mkCard "a" "a" "ToDo" 0, mkCard "b" "b" "ToDo" 2]⟩ "a"
        (mkCard "a" "a" "ToDo" 0) =
      .ok ⟨[mkCard "a" "a" "ToDo" 0, mkCard "b" "b" "ToDo" 2]⟩ ∧
    (⟨[mkCard "a" "a" "ToDo" 0, mkCard "b" "b" "ToDo" 1]⟩ : Board) ≠
      ⟨[mkCard "a" "a" "ToDo" 0, mkCard "b" "b" "ToDo" 2]⟩ := by
  refine ⟨?_, rfl, rfl, by decide⟩
  have h1 : Reachable ⟨[mkCard "a" "a" "ToDo" 0]⟩ :=
    Reachable.create ⟨[]⟩ _ (mkCard "q" "a" "ToDo" 7) "a" Reachable.empty
      (by decide) (by decide)
  have h2 : Reachable ⟨[mkCard "a" "a" "ToDo" 0, mkCard "x" "x" "ToDo" 1]⟩ :=
    Reachable.create _ _ (mkCard "q" "x" "ToDo" 7) "x" h1 (by decide) (by decide)
  have h3 : Reachable ⟨[mkCard "a" "a" "ToDo" 0, mkCard "x" "x" "ToDo" 1,
      mkCard "b" "b" "ToDo" 2]⟩ :=
    Reachable.create _ _ (mkCard "q" "b" "ToDo" 7) "b" h2 (by decide) (by decide)
  exact Reachable.delete _ _ "x" h3 rfl

end Kban

namespace Kban

theorem updateCard_ok_inv (b : Board) (id : String) (u : Card) (b' : Board)
    (h : updateCard b id u = .ok b') :
    ∃ l1 c l2, b.Cards = l1 ++ c :: l2 ∧ (∀ x ∈ l1, x.ID ≠ id) ∧ c.ID = id ∧
      ((c.Status ≠ u.Status ∨ c.Position ≠ u.Position) ∧
        b' = ⟨reorderColumn (l1 ++ setFields c u :: l2) id u⟩ ∨
       (c.Status = u.Status ∧ c.Position = u.Position) ∧
        b' = ⟨l1 ++ setFields c u :: l2⟩) := by
  have hex : ∃ c ∈ b.Cards, c.ID = id := by
    by_contra hno
    push_neg at hno
    have hnone : applyFields b.Cards id u = none := applyFields_none u hno
    unfold updateCard at h
    rw [hnone] at h
    exact absurd h (by simp)
  obtain ⟨cards⟩ := b
  obtain ⟨l1, c, l2, hsplit, hl1, hc⟩ := exists_first_split hex
  subst hsplit
  rw [updateCard_eq_split l1 l2 c id u hl1 hc] at h
  refine ⟨l1, c, l2, rfl, hl1, hc, ?_⟩
  by_cases htrig : c.Status ≠ u.Status ∨ c.Position ≠ u.Position
  · rw [if_pos htrig] at h
    injection h with h1
    exact Or.inl ⟨htrig, h1.symm⟩
  · rw [if_neg htrig] at h
    injection h with h1
    push_neg at htrig
    exact Or.inr ⟨⟨htrig.1, htrig.2⟩, h1.symm⟩

theorem Distinct_create (b : Board) (card : Card) (newId : String)
    (hd : Distinct b) (hfresh : ∀ c ∈ b.Cards, c.ID ≠ newId) :
    Distinct (createCard b card newId).1 := by
  obtain ⟨hid, hcol⟩ := hd
  have hcards : (createCard b card newId).1.Cards =
      b.Cards ++ [(createCard b card newId).2] := rfl
  have hid2 : (createCard b card newId).2.ID = newId := rfl
  have hpos2 : (createCard b card newId).2.Position =
      b.Cards.foldl
        (fun m c => if c.Status = card.Status ∧ m < c.Position then c.Position else m)
        (-1) + 1 := rfl
  constructor
  · rw [hcards, List.map_append, List.nodup_append]
    refine ⟨hid, by simp, ?_⟩
    intro z hz hz2
    obtain ⟨x, hx, rfl⟩ := List.mem_map.mp hz
    simp only [List.map_cons, List.map_nil, List.mem_cons, List.not_mem_nil,
      or_false] at hz2
    rw [hid2] at hz2
    exact hfresh x hx hz2
  · intro s
    rw [hcards]
    unfold column
    rw [List.filter_append, List.filter_cons]
    by_cases hcs : decide ((createCard b card newId).2.Status = s) = true
    · rw [if_pos hcs]
      simp only [List.filter_nil, List.map_append, List.map_cons, List.map_nil]
      rw [List.nodup_append]
      refine ⟨hcol s, by simp, ?_⟩
      intro p hp hp2
      obtain ⟨x, hx, rfl⟩ := List.mem_map.mp hp
      simp only [List.mem_cons, List.not_mem_nil, or_false] at hp2
      obtain ⟨hxm, hxs⟩ := List.mem_filter.mp hx
      have hss : (createCard b card newId).2.Status = s := of_decide_eq_true hcs
      have hcard : card.Status = s := hss
      have hxsp : x.Status = card.Status := by
        rw [hcard]
        exact of_decide_eq_true hxs
      have hle := maxfold_mem_le b.Cards card.Status (-1) x hxm hxsp
      rw [hp2, hpos2] at hle
      omega
    · rw [if_neg hcs]
      simp only [List.filter_nil, List.append_nil]
      exact hcol s

theorem Distinct_delete (b : Board) (id : String) (b' : Board)
    (hd : Distinct b) (h : deleteCard b id = .ok b') : Distinct b' := by
  unfold deleteCard at h
  by_cases hcond : (b.Cards.filter (fun c => decide (c.ID ≠ id))).length = b.Cards.length
  · rw [if_pos hcond] at h
    exact absurd h (by simp)
  · rw [if_neg hcond] at h
    injection h with h1
    obtain ⟨hid, hcol⟩ := hd
    rw [← h1]
    constructor
    · exact List.Nodup.sublist (List.Sublist.map Card.ID (List.filter_sublist _)) hid
    · intro s
      have hsub : List.Sublist
          (column (b.Cards.filter (fun c => decide (c.ID ≠ id))) s)
          (column b.Cards s) := by
        unfold column
        rw [List.filter_filter]
        have hcg : b.Cards.filter
            (fun a => decide (a.Status = s) && decide (a.ID ≠ id)) =
            (b.Cards.filter (fun a => decide (a.Status = s))).filter
              (fun a => decide (a.ID ≠ id)) := by
          rw [List.filter_filter]
          apply List.filter_congr
          intro x _
          rw [Bool.and_comm]
        rw [hcg]
        exact List.filter_sublist _
      exact List.Nodup.sublist (List.Sublist.map Card.Position hsub) (hcol s)

theorem Distinct_update (b : Board) (id : String) (u : Card) (b' : Board)
    (hd : Distinct b) (h : updateCard b id u = .ok b') : Distinct b' := by
  obtain ⟨l1, c, l2, hsplit, hl1, hc, hcase⟩ := updateCard_ok_inv b id u b' h
  obtain ⟨hid, hcol⟩ := hd
  rw [hsplit] at hid
  have hcol' : ∀ s, ((column (l1 ++ c :: l2) s).map Card.Position).Nodup := by
    intro s
    rw [← hsplit]
    exact hcol s
  rcases hcase with ⟨htrig, rfl⟩ | ⟨⟨hs, hp⟩, rfl⟩
  · have hids' : ((l1 ++ setFields c u :: l2).map Card.ID).Nodup := by
      rw [split_ids_setFields]
      exact hid
    have hres := reorder_result_eq l1 l2 (setFields c u) id u hids' hc rfl
    constructor
    · have key : ((List.map
          (applyOrder
            (insertOrder (column (l1 ++ l2) u.Status)
              (clampPos u.Position (column (l1 ++ l2) u.Status).length)
              (setFields c u))
            u.Status)
          (l1 ++ setFields c u :: l2)).map Card.ID).Nodup := by
        rw [List.map_map]
        have h1 : (l1 ++ setFields c u :: l2).map
            (Card.ID ∘ applyOrder
              (insertOrder (column (l1 ++ l2) u.Status)
                (clampPos u.Position (column (l1 ++ l2) u.Status).length)
                (setFields c u))
              u.Status) =
            (l1 ++ setFields c u :: l2).map Card.ID :=
          List.map_congr_left (fun x _ => applyOrderFrom_ID 0 _ _ x)
        rw [h1]
        exact hids'
      show ((⟨reorderColumn (l1 ++ setFields c u :: l2) id u⟩ : Board).Cards.map
        Card.ID).Nodup
      rw [hres]
      exact key
    · intro s
      by_cases hseq : s = u.Status
      · subst hseq
        have hperm := (reorder_target_perm l1 l2 (setFields c u) id u hids' hc rfl).1
        have hnd : ((List.range ((column (l1 ++ l2) u.Status).length + 1)).map
            (fun n : Nat => (n : Int))).Nodup := by
          apply List.Nodup.map
          · intro a b hab
            have hab' : (a : Int) = (b : Int) := hab
            exact_mod_cast hab'
          · exact List.nodup_range _
        show ((column
          (⟨reorderColumn (l1 ++ setFields c u :: l2) id u⟩ : Board).Cards u.Status).map
            Card.Position).Nodup
        rw [hres]
        exact (hperm.nodup_iff).mpr hnd
      · have hsub := reorder_other_column_sublist l1 l2 (setFields c u) id u s
          hids' hc rfl hseq
        have hsup : ((column (l1 ++ l2) s).map Card.Position).Nodup := by
          have h2 : List.Sublist (column (l1 ++ l2) s) (column (l1 ++ c :: l2) s) :=
            column_append_middle_sublist l1 l2 c s
          exact List.Nodup.sublist (List.Sublist.map Card.Position h2) (hcol' s)
        show ((column
          (⟨reorderColumn (l1 ++ setFields c u :: l2) id u⟩ : Board).Cards s).map
            Card.Position).Nodup
        rw [hres]
        exact List.Nodup.sublist hsub hsup
  · constructor
    · show (((l1 ++ setFields c u :: l2)).map Card.ID).Nodup
      rw [split_ids_setFields]
      exact hid
    · intro s
      have key : ((column (l1 ++ setFields c u :: l2) s).map Card.Position) =
          ((column (l1 ++ c :: l2) s).map Card.Position) := by
        unfold column
        rw [List.filter_append, List.filter_append, List.filter_cons, List.filter_cons]
        have hsf : (setFields c u).Status = c.Status := hs.symm
        rw [hsf]
        by_cases hdc : decide (c.Status = s) = true
        · rw [if_pos hdc, if_pos hdc]
          simp only [List.map_append, List.map_cons]
          have hpp : (setFields c u).Position = c.Position := hp.symm
          rw [hpp]
        · rw [if_neg hdc, if_neg hdc]
      show ((column
        ((⟨l1 ++ setFields c u :: l2⟩ : Board)).Cards s).map Card.Position).Nodup
      rw [key]
      exact hcol' s

/-- C1 (amended): on every board reachable through the public API the card
ids are pairwise distinct and, within each status column, the positions are
pairwise distinct; the stronger dense form `{0,…,k-1}` claimed by the spec
does not hold, because delete and cross-column moves leave the vacated
column's positions untouched (gaps remain). -/
theorem reachable_distinct (b : Board) (h : Reachable b) : Distinct b := by
  induction h with
  | empty => exact ⟨by simp, fun s => by simp [column]⟩
  | create b b' card newId hr hfresh heq ih =>
    rw [heq]
    exact Distinct_create b card newId ih hfresh
  | update b b' id u hr hup ih => exact Distinct_update b id u b' ih hup
  | delete b b' id hr hdel ih => exact Distinct_delete b id b' ih hdel

/-- Witness for C1 (amended) at a one-create board. -/
theorem reachable_distinct_witness :
    Distinct ⟨[mkCard "a" "a" "ToDo" 0]⟩ :=
  reachable_distinct ⟨[mkCard "a" "a" "ToDo" 0]⟩
    (Reachable.create ⟨[]⟩ ⟨[mkCard "a" "a" "ToDo" 0]⟩ (mkCard "q" "a" "ToDo" 7) "a"
      Reachable.empty (by decide) (by decide))

/-- Counterexample to C1 as stated: delete does not reindex the vacated
column, so the reachable board whose single ToDo card sits at position 1
violates the dense `{0,…,k-1}` invariant. -/
theorem dense_invariant_counterexample :
    Reachable ⟨[mkCard "b" "b" "ToDo" 1]⟩ ∧
    ¬ DenseBoard ⟨[mkCard "b" "b" "ToDo" 1]⟩ := by
  constructor
  · have h1 : Reachable ⟨[mkCard "a" "a" "ToDo" 0]⟩ :=
      Reachable.create ⟨[]⟩ _ (mkCard "q" "a" "ToDo" 7) "a" Reachable.empty
        (by decide) (by decide)
    have h2 : Reachable ⟨[mkCard "a" "a" "ToDo" 0, mkCard "b" "b" "ToDo" 1]⟩ :=
      Reachable.create _ _ (mkCard "q" "b" "ToDo" 7) "b" h1 (by decide) (by decide)
    exact Reachable.delete _ _ "a" h2 rfl
  · intro h
    exact absurd (h "ToDo") (by decide)

end Kban
